import Mathlib

/-!
Verification of the sitemapscraper service: the URL canonicalizer
(src/normalize.js and the normalize module bundled in src/extract.js),
the BFS crawl orchestrator (src/crawl.js), and the batch
content-extraction pipeline (src/content-extraction.js).

URLs are modelled by a structure mirroring the WHATWG URL object fields
the code reads and writes (protocol, hostname, port, pathname,
searchParams, hash).  `parseUrl` models the Node URL constructor on
absolute hierarchical http(s)-style URLs: scheme "://" host [":" port]
["/" path] ["?" query] ["#" fragment], without userinfo, IPv6 hosts or
percent-decoding, which the repository never exercises.
-/

/-- ASCII lowercasing of one character: the behavior of JavaScript
String.prototype.toLowerCase for hosts and schemes (ASCII in this code base). -/
def charLower (c : Char) : Char :=
  if 65 ≤ c.toNat ∧ c.toNat ≤ 90 then Char.ofNat (c.toNat + 32) else c

/-- ASCII lowercasing of a string. -/
def strLower (s : String) : String := String.mk (s.data.map charLower)

/-- Boolean test whether the list `p` is an initial segment of `l`
(JavaScript String.prototype.startsWith on the underlying characters). -/
def listStarts : List Char → List Char → Bool
  | [], _ => true
  | _ :: _, [] => false
  | p :: ps, c :: cs => p = c && listStarts ps cs

/-- JavaScript `hostname.startsWith('www.') ? hostname.substring(4) : hostname`
(src/normalize.js lines 30-32, src/extract.js lines 246-248, 297-299). -/
def stripWww (s : String) : String :=
  if listStarts "www.".data s.data then String.mk (s.data.drop 4) else s

/-- Splits a character list at the first character satisfying `p`: the prefix
before it, and the remainder beginning with it (or `[]` if none exists). -/
def takeUntil (p : Char → Bool) : List Char → List Char × List Char
  | [] => ([], [])
  | c :: cs =>
    if p c then ([], c :: cs)
    else
      let r := takeUntil p cs
      (c :: r.1, r.2)

/-- Splits a character list on a separator character, keeping empty segments
(the behavior of String.prototype.split for a single-character separator). -/
def splitOnChar (ch : Char) : List Char → List (List Char)
  | [] => [[]]
  | c :: cs =>
    let r := splitOnChar ch cs
    if c = ch then [] :: r
    else
      match r with
      | [] => [[c]]
      | h :: t => (c :: h) :: t

/-- Parses a list of decimal digits into a number; `none` if any character
is not a digit. -/
def digitsToNat : List Char → Option Nat
  | cs =>
    cs.foldl
      (fun acc c =>
        match acc with
        | none => none
        | some n => if c.isDigit then some (n * 10 + (c.toNat - 48)) else none)
      (some 0)

/-- The parsed URL model: the WHATWG URL object fields that the code reads
and writes.  `scheme` is stored without the trailing colon of the Node
`protocol` accessor; `query` is the searchParams entry list in order. -/
structure Url where
  scheme : String
  host : String
  port : Option Nat
  path : String
  query : List (String × String)
  frag : String
deriving Repr, DecidableEq

/-- Scheme characters: ASCII letters (the schemes this service meets are
plain http/https; Node additionally accepts digits and +-. after the first
character, which no URL in this code base uses). -/
def isSchemeChar (c : Char) : Bool :=
  (65 ≤ c.toNat && c.toNat ≤ 90) || (97 ≤ c.toNat && c.toNat ≤ 122)

/-- Authority-ending characters: a host extends to the first of these. -/
def isAuthEnd (c : Char) : Bool := c = '/' || c = '?' || c = '#'

/-- Query characters stop at the fragment delimiter. -/
def isHash (c : Char) : Bool := c = '#'

/-- Path characters stop at the query or fragment delimiter. -/
def isPathEnd (c : Char) : Bool := c = '?' || c = '#'

/-- One `key=value` query segment, split at the first `=`
(URLSearchParams semantics; the value keeps any later `=`). -/
def parseQueryItem (seg : List Char) : String × String :=
  let r := takeUntil (fun c => c = '=') seg
  match r.2 with
  | [] => (String.mk r.1, "")
  | _ :: v => (String.mk r.1, String.mk v)

/-- URLSearchParams parsing of a raw query: split on ampersands, drop empty
segments, split each segment at its first equals sign. -/
def parseQuery (cs : List Char) : List (String × String) :=
  ((splitOnChar '&' cs).filter (fun seg => ¬ seg = [])).map parseQueryItem

/-- Scheme splitting of `new URL`: the characters before the first colon,
validated as a scheme, with the "//" of the authority form required
(absolute hierarchical URLs only). -/
def splitScheme (cs : List Char) : Option (List Char × List Char) :=
  let sr := takeUntil (fun c => c = ':') cs
  match sr.2 with
  | ':' :: '/' :: '/' :: rest =>
    if sr.1 = [] then none
    else if ¬ sr.1.all isSchemeChar then none
    else some (sr.1, rest)
  | _ => none

/-- Authority splitting of `new URL`: the host runs to the first slash,
question mark or hash; an optional decimal port follows a colon; userinfo
(an at sign) and IPv6 bracket hosts are unsupported.  Returns the host
characters, the port, and the remainder. -/
def splitAuthority (cs : List Char) : Option (List Char × Option Nat × List Char) :=
  let ar := takeUntil isAuthEnd cs
  if ar.1.any (fun c => c = '@') then none
  else
    let hp := takeUntil (fun c => c = ':') ar.1
    if hp.1 = [] then none
    else
      match hp.2 with
      | [] => some (hp.1, none, ar.2)
      | _ :: portCs =>
        if portCs = [] then some (hp.1, none, ar.2)
        else
          match digitsToNat portCs with
          | none => none
          | some n => if n ≤ 65535 then some (hp.1, some n, ar.2) else none

/-- Path splitting: a path is present exactly when the remainder starts with
a slash, and runs to the query or fragment delimiter. -/
def splitPath (cs : List Char) : List Char × List Char :=
  match cs with
  | '/' :: _ => takeUntil isPathEnd cs
  | _ => ([], cs)

/-- Query splitting: a raw query follows a question mark and runs to the
fragment delimiter. -/
def splitQuery (cs : List Char) : List Char × List Char :=
  match cs with
  | '?' :: qrest => takeUntil isHash qrest
  | _ => ([], cs)

/-- Fragment of the remainder: everything after a leading hash. -/
def parseFrag (cs : List Char) : String :=
  match cs with
  | '#' :: f => String.mk f
  | _ => ""

/-- Model of `new URL(s)` for absolute hierarchical URLs, including the
WHATWG normalizations the code relies on: the default port of http/https
is dropped, a missing path reads back as "/", and fragment/query are
separated out.  Userinfo and IPv6 hosts are unsupported and yield `none`. -/
def parseUrl (s : String) : Option Url :=
  match splitScheme s.data with
  | none => none
  | some (schemeCs, rest) =>
    match splitAuthority rest with
    | none => none
    | some (hostCs, port0, rest2) =>
      let schemeL := strLower (String.mk schemeCs)
      let port :=
        if (schemeL = "http" ∧ port0 = some 80) ∨ (schemeL = "https" ∧ port0 = some 443)
        then none else port0
      let pr := splitPath rest2
      let path := if pr.1 = [] then "/" else String.mk pr.1
      let qr := splitQuery pr.2
      some { scheme := String.mk schemeCs, host := String.mk hostCs, port := port,
             path := path, query := parseQuery qr.1, frag := parseFrag qr.2 }

/-- URLSearchParams.toString: ampersand-joined `key=value` pairs. -/
def serializeQuery : List (String × String) → String
  | [] => ""
  | [p] => p.1 ++ "=" ++ p.2
  | p :: rest => p.1 ++ "=" ++ p.2 ++ "&" ++ serializeQuery rest

/-- The `search` accessor: empty, or a question mark followed by the
serialized parameters. -/
def searchOf (q : List (String × String)) : String :=
  if q = [] then "" else "?" ++ serializeQuery q

/-- The `:port` suffix used when serializing a URL with an explicit port. -/
def portSuffix : Option Nat → String
  | none => ""
  | some n => ":" ++ toString n

/-- The `#fragment` suffix of a serialized URL. -/
def fragSuffix (f : String) : String := if f = "" then "" else "#" ++ f

/-- Model of the `href` accessor: full serialization of a parsed URL. -/
def serializeUrl (u : Url) : String :=
  u.scheme ++ "://" ++ u.host ++ portSuffix u.port ++ u.path ++ searchOf u.query
    ++ fragSuffix u.frag

/-- Pathname normalization shared by both normalizeUrl variants
(src/normalize.js lines 57-68, src/extract.js lines 263-274):
collapse duplicate slashes, drop a trailing slash except at the root,
ensure a leading slash. -/
def collapseSlashes : List Char → List Char
  | [] => []
  | [c] => [c]
  | c :: c2 :: cs =>
    if c = '/' && c2 = '/' then collapseSlashes (c2 :: cs)
    else c :: collapseSlashes (c2 :: cs)

/-- Pathname normalization: regex collapse of slash runs, trailing-slash
removal except at the root, and a guaranteed leading slash. -/
def normalizePath (p : String) : String :=
  let p1 := collapseSlashes p.data
  let p2 := if 1 < p1.length ∧ p1.getLast? = some '/' then p1.dropLast else p1
  let p3 := if listStarts "/".data p2 then p2 else '/' :: p2
  String.mk p3

/-- Pagination query parameters preserved by normalization
(src/normalize.js line 13). -/
def PAGINATION_PARAMS : List String := ["page", "p", "pagenum", "paged", "offset", "start"]

/-- Non-utm tracking parameters removed by normalization
(src/normalize.js line 39). -/
def trackingParams : List String := ["fbclid", "gclid"]

/-- The removal predicate of src/normalize.js lines 44-49: a key is removed
when its lowercasing is not a pagination parameter and is either utm_-prefixed
or a known tracking parameter. -/
def isTrackingKey (k : String) : Bool :=
  let keyLower := strLower k
  ! PAGINATION_PARAMS.contains keyLower
    && (listStarts "utm_".data keyLower.data || trackingParams.contains keyLower)

/-- The collect-then-delete pass of src/normalize.js lines 40-55: collect the
keys to remove, then delete every entry whose key was collected. -/
def removeTracking (q : List (String × String)) : List (String × String) :=
  let toRemove := (q.filter (fun p => isTrackingKey p.1)).map Prod.fst
  q.filter (fun p => ! toRemove.contains p.1)

namespace Normalize

/-- Structural core of normalizeUrl from src/normalize.js lines 21-78:
lowercase protocol and hostname, strip a leading www., drop the fragment,
remove tracking query parameters, normalize the pathname.  The port is not
emitted by the reconstruction on line 71, hence cleared here. -/
def normCore (u : Url) : Url :=
  { scheme := strLower u.scheme
    host := stripWww (strLower u.host)
    port := none
    path := normalizePath u.path
    query := removeTracking u.query
    frag := "" }

/-- Serialization used on line 71 of src/normalize.js:
protocol, hostname, pathname and search, with no port and no hash. -/
def serializeNoPort (u : Url) : String :=
  u.scheme ++ "://" ++ u.host ++ u.path ++ searchOf u.query

/-- normalizeUrl of src/normalize.js lines 21-78: parse, normalize
structurally, and rebuild the string; `none` models the null returned on a
URL-constructor throw. -/
def normalizeUrl (url : String) : Option String :=
  match parseUrl url with
  | none => none
  | some u => some (serializeNoPort (normCore u))

end Normalize

namespace Norm2

/-- Structural core of normalizeUrl from the normalize module bundled in
src/extract.js lines 237-284 (the variant imported by src/crawl.js):
lowercase protocol and hostname, strip a leading www., drop default ports,
drop the fragment, drop the whole query string, normalize the pathname. -/
def normCore (u : Url) : Url :=
  { scheme := strLower u.scheme
    host := stripWww (strLower u.host)
    port :=
      if (strLower u.scheme = "http" ∧ u.port = some 80)
          ∨ (strLower u.scheme = "https" ∧ u.port = some 443)
      then none else u.port
    path := normalizePath u.path
    query := []
    frag := "" }

/-- Serialization used on line 277 of src/extract.js: protocol, hostname,
an explicit port when present, and pathname; no query, no hash. -/
def serializeNoQuery (u : Url) : String :=
  u.scheme ++ "://" ++ u.host ++ portSuffix u.port ++ u.path

/-- normalizeUrl of src/extract.js lines 237-284: parse, normalize
structurally, and rebuild without query string or fragment. -/
def normalizeUrl (url : String) : Option String :=
  match parseUrl url with
  | none => none
  | some u => some (serializeNoQuery (normCore u))

/-- extractPrimaryDomain of src/extract.js lines 291-305: the lowercased
hostname with a leading www. stripped, or `none` on a parse failure. -/
def extractPrimaryDomain (url : String) : Option String :=
  match parseUrl url with
  | none => none
  | some u => some (stripWww (strLower u.host))

/-- isPrimaryDomain of src/extract.js lines 313-320: exact equality of the
URL's primary domain with the job's primary domain (a parse failure compares
unequal, as null does in JavaScript). -/
def isPrimaryDomain (url : String) (primaryDomain : String) : Bool :=
  match extractPrimaryDomain url with
  | none => false
  | some d => d = primaryDomain

/-- normalizeAndClassifyUrl of src/extract.js lines 329-348: resolve (the
model covers absolute links, for which the base is ignored), normalize, and
classify by exact primary-domain comparison. -/
def normalizeAndClassifyUrl (url _baseUrl primaryDomain : String) :
    Option String × Bool :=
  match parseUrl url with
  | none => (none, true)
  | some pu =>
    match Norm2.normalizeUrl (serializeUrl pu) with
    | none => (none, true)
    | some normalized =>
      let urlDomain := extractPrimaryDomain normalized
      (some normalized, decide (¬ urlDomain = some primaryDomain))

end Norm2

namespace Crawl

/-- Crawl page budget (src/crawl.js line 52). -/
def MAX_PAGES : Nat := 1000

/-- Crawl depth budget (src/crawl.js line 53). -/
def MAX_DEPTH : Nat := 10

/-- Non-HTML file extensions skipped by the crawler (src/crawl.js lines 56-61). -/
def NON_HTML_EXTENSIONS : List String :=
  ["pdf", "jpg", "jpeg", "png", "gif", "svg", "webp", "ico",
   "css", "js", "json", "xml", "zip", "tar", "gz", "rar",
   "mp4", "mp3", "avi", "mov", "wmv", "flv",
   "doc", "docx", "xls", "xlsx", "ppt", "pptx"]

/-- shouldSkipUrl of src/crawl.js lines 68-98: skip mailto/tel/javascript
schemes, hash-only links, and URLs whose lowercased pathname ends in a
non-HTML extension; a URL-parse failure lets the link through. -/
def shouldSkipUrl (url : String) : Bool :=
  if listStarts "mailto:".data url.data then true
  else if listStarts "tel:".data url.data then true
  else if listStarts "javascript:".data url.data then true
  else if listStarts "#".data url.data then true
  else
    match parseUrl url with
    | none => false
    | some parsed =>
      let pathname := strLower parsed.path
      match (splitOnChar '.' pathname.data).getLast? with
      | none => false
      | some ext =>
        decide (¬ ext = []) && NON_HTML_EXTENSIONS.contains (String.mk ext)

/-- resolveUrl of src/crawl.js lines 106-112, the href of `new URL(url, baseUrl)`.
The model covers absolute link targets (the WHATWG relative-resolution
algorithm is a collaborator); for them the base argument is ignored. -/
def resolveUrl (url _baseUrl : String) : Option String :=
  match parseUrl url with
  | none => none
  | some u => some (serializeUrl u)

/-- Result of the delegated fetchPage collaborator (src/fetch.js): the final
URL after redirects, the HTTP status, and for HTML responses the outbound
href list produced by the delegated extractLinks parser; `html = none` models
a non-HTML content type.  A fetch-level throw is modelled by the environment
returning `none`. -/
structure FetchResult where
  url : String
  status : Nat
  html : Option (List String)
deriving Repr, DecidableEq

/-- A persisted page row as loaded for resume support (src/crawl.js lines 311-315). -/
structure PageRow where
  normalized_url : String
  url : String
  internal_links_out : Nat
  external_links_out : Nat
  internal_links_in : Nat
  external_links_in : Nat
deriving Repr, DecidableEq

/-- The environment of collaborator behavior a crawl runs against. -/
structure CrawlEnv where
  fetch : String → Option FetchResult
  existingPages : List PageRow

/-- In-memory page object (src/crawl.js lines 518-529).  The metadata fields
produced by the delegated parser (title, h1, meta description, canonical) do
not affect any claim and are not carried. -/
structure Page where
  normalized_url : String
  status_code : Nat
  internal_links_out : Nat
  external_links_out : Nat
  internal_links_in : Nat
  external_links_in : Nat
deriving Repr, DecidableEq

/-- External-link registry entry (src/crawl.js lines 480-488). -/
structure RegistryEntry where
  occurrences : Nat
  pages_found_on : List String
deriving Repr, DecidableEq

/-- Frontier entry (src/crawl.js lines 242, 613-617). -/
structure FrontierEntry where
  normalized_url : String
  depth : Nat
  original_url : String
deriving Repr, DecidableEq

/-- Ghost record of one internal incoming-link discovery: page `source`
held a link whose normalized target is `target` (src/crawl.js lines 499-504). -/
structure Edge where
  source : String
  target : String
deriving Repr, DecidableEq

/-- Association-list lookup by string key (JavaScript Map.get). -/
def lookupA {α : Type} (m : List (String × α)) (k : String) : Option α :=
  match m.find? (fun p => p.1 = k) with
  | none => none
  | some p => some p.2

/-- Association-list store by string key (JavaScript Map.set): replace in
place, or append when absent. -/
def setA {α : Type} : List (String × α) → String → α → List (String × α)
  | [], k, v => [(k, v)]
  | (k0, v0) :: rest, k, v =>
    if k0 = k then (k0, v) :: rest else (k0, v0) :: setA rest k v

/-- Increment of the pending internal incoming count for a target URL
(src/crawl.js lines 500-503); the pair is (internal_count, external_count). -/
def bumpInternalIn (m : List (String × (Nat × Nat))) (k : String) :
    List (String × (Nat × Nat)) :=
  match lookupA m k with
  | none => setA m k (1, 0)
  | some c => setA m k (c.1 + 1, c.2)

/-- External-registry update for one occurrence of an external link
(src/crawl.js lines 479-489): create the entry if needed, increment its
occurrence count, and add the referring page to its set. -/
def addExternal (m : List (String × RegistryEntry)) (target source : String) :
    List (String × RegistryEntry) :=
  match lookupA m target with
  | none => setA m target { occurrences := 1, pages_found_on := [source] }
  | some r =>
    setA m target
      { occurrences := r.occurrences + 1
        pages_found_on :=
          if r.pages_found_on.contains source then r.pages_found_on
          else r.pages_found_on ++ [source] }

/-- Accumulator of the link-classification loop (src/crawl.js lines 452-506),
together with the ghost trace of internal incoming-link discoveries. -/
structure LinkAcc where
  internalOut : Nat
  externalOut : Nat
  externalLinks : List (String × RegistryEntry)
  incomingLinks : List (String × (Nat × Nat))
  trace : List Edge

/-- One iteration of the link-classification loop (src/crawl.js lines 462-506)
for a raw link found on page `np` fetched at final URL `fu`. -/
def classifyStep (pd np fu : String) (acc : LinkAcc) (link : String) : LinkAcc :=
  if shouldSkipUrl link then acc
  else
    match resolveUrl link fu with
    | none => acc
    | some _ =>
      match Norm2.normalizeAndClassifyUrl link fu pd with
      | (normalizedLink, true) =>
        let acc1 :=
          match normalizedLink with
          | some nl => { acc with externalLinks := addExternal acc.externalLinks nl np }
          | none => acc
        { acc1 with externalOut := acc1.externalOut + 1 }
      | (normalizedLink, false) =>
        let acc1 := { acc with internalOut := acc.internalOut + 1 }
        match normalizedLink with
        | some nl =>
          if nl = np then acc1
          else
            { acc1 with
              incomingLinks := bumpInternalIn acc1.incomingLinks nl
              trace := acc1.trace ++ [{ source := np, target := nl }] }
        | none => acc1

/-- Accumulator of the enqueue loop (src/crawl.js lines 560-620). -/
structure EnqAcc where
  queue : List FrontierEntry
  seenUrls : List String
  enqueuedCount : Nat
  duplicatesSkipped : Nat

/-- One iteration of the enqueue loop (src/crawl.js lines 563-620): internal
in-scope links are enqueued at depth+1 when unseen and below MAX_DEPTH,
and marked seen at enqueue time, before the push. -/
def enqueueStep (pd : String) (depth : Nat) (pagesMap : List (String × Page))
    (fu : String) (acc : EnqAcc) (link : String) : EnqAcc :=
  if shouldSkipUrl link then acc
  else
    match resolveUrl link fu with
    | none => acc
    | some resolvedLink =>
      match Norm2.normalizeAndClassifyUrl link fu pd with
      | (_, true) => acc
      | (none, false) => acc
      | (some nl, false) =>
        if ¬ Norm2.isPrimaryDomain nl pd then acc
        else if acc.seenUrls.contains nl || (lookupA pagesMap nl).isSome then
          { acc with duplicatesSkipped := acc.duplicatesSkipped + 1 }
        else if MAX_DEPTH ≤ depth then acc
        else
          { acc with
            seenUrls := acc.seenUrls ++ [nl]
            queue := acc.queue ++
              [{ normalized_url := nl, depth := depth + 1, original_url := resolvedLink }]
            enqueuedCount := acc.enqueuedCount + 1 }

/-- The mutable state of the BFS loop of runCrawl (src/crawl.js lines 242-262),
plus the ghost `trace`.  The originalUrlsMap (CSV export only) and the dead
linkMetricsMap (written on lines 264, 341, 509 but never read) are omitted. -/
structure CrawlState where
  queue : List FrontierEntry
  seenUrls : List String
  pagesMap : List (String × Page)
  externalLinks : List (String × RegistryEntry)
  incomingLinks : List (String × (Nat × Nat))
  pagesCrawled : Nat
  totalDuplicatesSkipped : Nat
  iterationsWithoutNewPages : Nat
  maxDepthReached : Nat
  totalUrlsDiscovered : Nat
  totalUrlsEnqueued : Nat
  trace : List Edge

/-- One iteration of the BFS while-loop body (src/crawl.js lines 364-641).
Progress writes to the job row (line 423) are best-effort and do not affect
the loop state; a fetch-level throw is the catch on line 636 and simply
continues.  Queue entries always carry an original_url (lines 242, 616), so
the fallback on lines 378-383 is not reachable. -/
def crawlStep (env : CrawlEnv) (pd : String) (st : CrawlState) : CrawlState :=
  match st.queue with
  | [] => st
  | e :: rest =>
    let st1 := { st with queue := rest }
    if MAX_DEPTH < e.depth then st1
    else if ¬ Norm2.isPrimaryDomain e.normalized_url pd then st1
    else if (lookupA st1.pagesMap e.normalized_url).isSome then
      { st1 with totalDuplicatesSkipped := st1.totalDuplicatesSkipped + 1 }
    else if shouldSkipUrl e.original_url then st1
    else
      let st2 := { st1 with
        pagesCrawled := st1.pagesCrawled + 1
        maxDepthReached := max st1.maxDepthReached e.depth }
      match env.fetch e.original_url with
      | none => st2
      | some fr =>
        match fr.html with
        | none => st2
        | some links =>
          let st3 := { st2 with
            totalUrlsDiscovered := st2.totalUrlsDiscovered + links.length }
          let acc := links.foldl (classifyStep pd e.normalized_url fr.url)
            { internalOut := 0, externalOut := 0, externalLinks := st3.externalLinks,
              incomingLinks := st3.incomingLinks, trace := st3.trace }
          let incoming := (lookupA acc.incomingLinks e.normalized_url).getD (0, 0)
          let page : Page :=
            { normalized_url := e.normalized_url
              status_code := fr.status
              internal_links_out := acc.internalOut
              external_links_out := acc.externalOut
              internal_links_in := incoming.1
              external_links_in := incoming.2 }
          let pagesMap2 := setA st3.pagesMap e.normalized_url page
          let enq := links.foldl (enqueueStep pd e.depth pagesMap2 fr.url)
            { queue := st3.queue, seenUrls := st3.seenUrls,
              enqueuedCount := 0, duplicatesSkipped := 0 }
          { st3 with
            queue := enq.queue
            seenUrls := enq.seenUrls
            pagesMap := pagesMap2
            externalLinks := acc.externalLinks
            incomingLinks := acc.incomingLinks
            trace := acc.trace
            totalUrlsEnqueued := st3.totalUrlsEnqueued + enq.enqueuedCount
            totalDuplicatesSkipped := st3.totalDuplicatesSkipped + enq.duplicatesSkipped
            iterationsWithoutNewPages :=
              if enq.enqueuedCount = 0 then st3.iterationsWithoutNewPages + 1 else 0 }

/-- The BFS while-loop (src/crawl.js line 364), fuelled; `none` models a run
that has not yet reached its exit condition within the given fuel.  The
fail-safe break on lines 623-631 only fires when the queue is already empty,
so it coincides with the loop guard and needs no separate exit. -/
def crawlLoop (env : CrawlEnv) (pd : String) : Nat → CrawlState → Option CrawlState
  | 0, _ => none
  | fuel + 1, st =>
    if st.queue ≠ [] ∧ st.pagesCrawled < MAX_PAGES then
      crawlLoop env pd fuel (crawlStep env pd st)
    else some st

/-- The crawl job outcome persisted at completion or failure, with the pages
as reconciled and persisted by the final pass (src/crawl.js lines 655-710),
and the ghost trace and remaining queue exposed for specification. -/
structure CrawlResult where
  status : String
  stop_reason : Option String
  error_message : Option String
  pages : List (String × Page)
  external_links : List (String × RegistryEntry)
  pages_discovered : Nat
  pages_crawled : Nat
  duplicates_skipped : Nat
  queueRemaining : List FrontierEntry
  trace : List Edge
deriving Repr, DecidableEq

/-- Final reconciliation of one page row (src/crawl.js lines 657-672): the
persisted in-counts become the final accumulator values. -/
def reconcilePage (incomingLinks : List (String × (Nat × Nat)))
    (p : String × Page) : String × Page :=
  let inc := (lookupA incomingLinks p.1).getD (0, 0)
  (p.1, { p.2 with internal_links_in := inc.1, external_links_in := inc.2 })

/-- stop_reason selection (src/crawl.js lines 694-699): the page limit takes
priority over queue exhaustion. -/
def stopReasonOf (st : CrawlState) : String :=
  if MAX_PAGES ≤ st.pagesCrawled then
    "MAX_PAGES limit reached (" ++ toString MAX_PAGES ++ ")"
  else if st.queue = [] then "Queue exhausted"
  else "No new pages added after " ++ toString st.iterationsWithoutNewPages ++ " iterations"

/-- Completion path of runCrawl (src/crawl.js lines 643-741): reconcile every
page's incoming counts, persist the external-link registry, and mark the job
completed with its stop reason and counters. -/
def finalizeCrawl (st : CrawlState) : CrawlResult :=
  { status := "completed"
    stop_reason := some (stopReasonOf st)
    error_message := none
    pages := st.pagesMap.map (reconcilePage st.incomingLinks)
    external_links := st.externalLinks
    pages_discovered := st.pagesMap.length
    pages_crawled := st.pagesCrawled
    duplicates_skipped := st.totalDuplicatesSkipped
    queueRemaining := st.queue
    trace := st.trace }

/-- A crawl job record: the seed domain. -/
structure CrawlJob where
  domain : String

/-- Seed URL construction (src/crawl.js line 213). -/
def seedUrlOf (domain : String) : String :=
  if listStarts "http".data domain.data then domain else "https://" ++ domain

/-- Initial loop state (src/crawl.js lines 242-262, 311-354): resume rows are
filtered to the primary domain and preloaded into the seen-set and page map;
the seed is marked seen. -/
def initState (env : CrawlEnv) (seedNormalized seedUrl pd : String) : CrawlState :=
  let keep := env.existingPages.filter
    (fun row => decide (¬ row.normalized_url = "")
      && Norm2.isPrimaryDomain row.normalized_url pd)
  { queue := [{ normalized_url := seedNormalized, depth := 0, original_url := seedUrl }]
    seenUrls := keep.map (fun row => row.normalized_url) ++ [seedNormalized]
    pagesMap := keep.map (fun row =>
      (row.normalized_url,
        { normalized_url := row.normalized_url
          status_code := 0
          internal_links_out := row.internal_links_out
          external_links_out := row.external_links_out
          internal_links_in := row.internal_links_in
          external_links_in := row.external_links_in }))
    externalLinks := []
    incomingLinks := []
    pagesCrawled := 0
    totalDuplicatesSkipped := 0
    iterationsWithoutNewPages := 0
    maxDepthReached := 0
    totalUrlsDiscovered := 0
    totalUrlsEnqueued := 0
    trace := [] }

/-- The failure result of seed validation (src/crawl.js lines 221-240). -/
def invalidSeedResult (seedUrl : String) (msg : String) : CrawlResult :=
  { status := "failed"
    stop_reason := some "invalid_seed_url"
    error_message := some (msg ++ seedUrl)
    pages := []
    external_links := []
    pages_discovered := 0
    pages_crawled := 0
    duplicates_skipped := 0
    queueRemaining := []
    trace := [] }

/-- runCrawl of src/crawl.js lines 211-742: validate the seed, run the BFS
loop, reconcile and complete.  The two watchdog timers (lines 269-309) touch
no loop state and are cleared on the exit path (lines 643-645); they are out
of scope of this functional model. -/
def runCrawl (env : CrawlEnv) (job : CrawlJob) (fuel : Nat) : Option CrawlResult :=
  match Norm2.extractPrimaryDomain (seedUrlOf job.domain) with
  | none => some (invalidSeedResult (seedUrlOf job.domain) "Invalid seed URL: ")
  | some pd =>
    match Norm2.normalizeUrl (seedUrlOf job.domain) with
    | none =>
      some (invalidSeedResult (seedUrlOf job.domain)
        "Seed URL does not belong to primary domain: ")
    | some seedNormalized =>
      if ¬ Norm2.isPrimaryDomain seedNormalized pd then
        some (invalidSeedResult (seedUrlOf job.domain)
          "Seed URL does not belong to primary domain: ")
      else
        match crawlLoop env pd fuel
            (initState env seedNormalized (seedUrlOf job.domain) pd) with
        | none => none
        | some st => some (finalizeCrawl st)

end Crawl

namespace ContentExtraction

/-- A page row as selected for extraction (src/content-extraction.js
lines 436-441: normalized_url and url). -/
structure ExtPageRow where
  normalized_url : String
  url : String
deriving Repr, DecidableEq

/-- Extracted content payload.  Its construction (clean text, headings, SEO
block, JSON-LD) is delegated to the parser collaborator of src/extract-content.js
and is opaque to the pipeline's control flow, which these claims are about. -/
structure Content where
  payload : String
deriving Repr, DecidableEq

/-- The per-page collaborator outcomes one page's processing runs against:
the extractPageContent result (error = a throw with that message), and the
error results of the upsert, delete and insert persistence calls
(none = success). -/
structure PageEnv where
  extractResult : Except String Content
  upsertError : Option String
  deleteError : Option String
  insertError : Option String

/-- The crawl_job_id/normalized_url pair keying a content record. -/
abbrev ContentKey := String × String

/-- The page_content store: records keyed by (crawl_job_id, normalized_url). -/
abbrev ContentStore := List (ContentKey × Content)

/-- A successful upsert keyed by (crawl_job_id, normalized_url)
(src/content-extraction.js lines 549-553): replace in place or append. -/
def upsertRecord : ContentStore → ContentKey → Content → ContentStore
  | [], k, c => [(k, c)]
  | (k0, c0) :: rest, k, c =>
    if k0 = k then (k0, c) :: rest else (k0, c0) :: upsertRecord rest k c

/-- A successful delete by (crawl_job_id, normalized_url)
(src/content-extraction.js lines 569-573): removes every matching record. -/
def deleteRecord (store : ContentStore) (k : ContentKey) : ContentStore :=
  store.filter (fun e => decide (¬ e.1 = k))

/-- Running totals of the batch loop (src/content-extraction.js lines 493-495)
together with the evolving store. -/
structure ExtState where
  store : ContentStore
  pagesExtracted : Nat
  pagesFailed : Nat
  failedUrls : List (String × String)
deriving Repr, DecidableEq

/-- The fetch URL of a row: `page.url || page.normalized_url`
(src/content-extraction.js lines 508, 633). -/
def fetchUrlOf (row : ExtPageRow) : String :=
  if row.url = "" then row.normalized_url else row.url

/-- Processing of a single page (src/content-extraction.js lines 505-637):
extract; upsert keyed by (crawl_job_id, normalized_url); on upsert failure
fall back to delete-by-key (its own failure only logged) then a fresh insert;
if that also fails, this one page is counted failed with the combined error;
any throw is caught by the per-page catch and increments the failure counters
only. -/
def processPage (sitemapId : String) (perPage : String → PageEnv)
    (st : ExtState) (row : ExtPageRow) : ExtState :=
  let url := fetchUrlOf row
  let e := perPage url
  match e.extractResult with
  | .error msg =>
    { st with
      pagesFailed := st.pagesFailed + 1
      failedUrls := st.failedUrls ++ [(url, msg)] }
  | .ok content =>
    let normalizedUrl := (Norm2.normalizeUrl url).getD row.normalized_url
    let key : ContentKey := (sitemapId, normalizedUrl)
    match e.upsertError with
    | none =>
      { st with
        store := upsertRecord st.store key content
        pagesExtracted := st.pagesExtracted + 1 }
    | some err1 =>
      let store1 := if e.deleteError = none then deleteRecord st.store key else st.store
      match e.insertError with
      | none =>
        { st with
          store := store1 ++ [(key, content)]
          pagesExtracted := st.pagesExtracted + 1 }
      | some err2 =>
        { st with
          store := store1
          pagesFailed := st.pagesFailed + 1
          failedUrls := st.failedUrls ++
            [(url, "Database error (upsert failed, insert also failed): "
              ++ err2 ++ ". Original: " ++ err1)] }

/-- The persisted extraction job record; counters the code never wrote on a
given path are `none` (updateExtractionJobStatus only writes the provided
metadata keys, src/content-extraction.js lines 374-400). -/
structure ExtractionJobRecord where
  status : String
  pages_total : Option Nat
  pages_extracted : Option Nat
  pages_failed : Option Nat
  pages_skipped : Option Nat
  pages_in_database : Option Nat
  failed_urls : Option (List (String × String))
  error_message : Option String
deriving Repr, DecidableEq

/-- The environment a batch extraction run observes: the pages query result
(error = a throw caught by the job-level handler), the set of normalized
URLs that already have content, the per-page collaborator outcomes, and the
final count-verification result. -/
structure ExtEnv where
  allPages : Except String (List ExtPageRow)
  existingContentUrls : List String
  perPage : String → PageEnv
  dbCount : Option Nat

/-- The selected processing set: all pages, or with onlyMissing the pages
lacking a content record (src/content-extraction.js lines 457-477). -/
def selectedPages (env : ExtEnv) (allPages : List ExtPageRow) (onlyMissing : Bool) :
    List ExtPageRow :=
  if onlyMissing then
    allPages.filter (fun page => ! env.existingContentUrls.contains page.normalized_url)
  else allPages

/-- runContentExtraction of src/content-extraction.js lines 428-697: load the
pages (a load failure fails the job), select the processing set, process it
(BATCH_SIZE-10 batches with intra-batch parallelism; counter updates are
atomic in the single-threaded runtime, so the chunked parallel loop is
observably this sequential fold for every persisted outcome), then complete
with the totals.  Returns the final job record and the resulting store. -/
def runContentExtraction (env : ExtEnv) (sitemapId : String) (onlyMissing : Bool)
    (store0 : ContentStore) : ExtractionJobRecord × ContentStore :=
  match env.allPages with
  | .error msg =>
    ({ status := "failed"
       pages_total := none, pages_extracted := none, pages_failed := none
       pages_skipped := none, pages_in_database := none, failed_urls := none
       error_message := some ("Failed to fetch pages: " ++ msg) }, store0)
  | .ok allPages =>
    if allPages = [] then
      ({ status := "completed"
         pages_total := some 0, pages_extracted := some 0, pages_failed := some 0
         pages_skipped := none, pages_in_database := none, failed_urls := none
         error_message := none }, store0)
    else
      let pages := selectedPages env allPages onlyMissing
      if pages = [] then
        ({ status := "completed"
           pages_total := some allPages.length, pages_extracted := some 0
           pages_failed := some 0, pages_skipped := some allPages.length
           pages_in_database := none, failed_urls := none
           error_message := none }, store0)
      else
        let st := pages.foldl (processPage sitemapId env.perPage)
          { store := store0, pagesExtracted := 0, pagesFailed := 0, failedUrls := [] }
        ({ status := "completed"
           pages_total := some pages.length
           pages_extracted := some st.pagesExtracted
           pages_failed := some st.pagesFailed
           pages_skipped := none
           pages_in_database := env.dbCount
           failed_urls := if 0 < st.failedUrls.length then some st.failedUrls else none
           error_message := none }, st.store)

/-- A crawl job row as read by startContentExtraction
(src/content-extraction.js lines 339-343). -/
structure CrawlJobRow where
  id : String
  domain : String
  status : String
deriving Repr, DecidableEq

/-- The extraction job record created by startContentExtraction
(src/content-extraction.js lines 350-359). -/
structure ExtractionJobStub where
  crawl_job_id : String
  status : String
  only_missing : Bool
deriving Repr, DecidableEq

/-- startContentExtraction of src/content-extraction.js lines 335-366:
throw when the crawl job lookup yields nothing, or when the job-record
insert fails; otherwise create and return a running extraction job.  The
crawl job's own status is read but never examined. -/
def startContentExtraction (crawlJobLookup : Option CrawlJobRow)
    (insertError : Option String) (sitemapId : String) (onlyMissing : Bool) :
    Except String ExtractionJobStub :=
  match crawlJobLookup with
  | none => .error ("Crawl job " ++ sitemapId ++ " not found")
  | some _ =>
    match insertError with
    | some msg => .error ("Failed to create content extraction job: " ++ msg)
    | none => .ok { crawl_job_id := sitemapId, status := "running", only_missing := onlyMissing }

end ContentExtraction

namespace Crawl

/-- Frontier well-formedness: the queue never holds two entries with the same
normalized URL, and every queued URL is in the seen-set. -/
def QueueInv (st : CrawlState) : Prop :=
  (st.queue.map (fun e => e.normalized_url)).Nodup
  ∧ ∀ e ∈ st.queue, e.normalized_url ∈ st.seenUrls

/-- Accumulator soundness: the pending incoming counts equal the number of
traced internal link occurrences per target, and no external incoming edge
is ever recorded. -/
def IncomingInv (incomingLinks : List (String × (Nat × Nat))) (trace : List Edge) : Prop :=
  ∀ url, (lookupA incomingLinks url).getD (0, 0)
    = ((trace.filter (fun ed => ed.target = url)).length, 0)

end Crawl

namespace ContentExtraction

/-- Association lookup in the content store by (crawl_job_id, normalized_url). -/
def lookupC (store : ContentStore) (k : ContentKey) : Option Content :=
  match store.find? (fun e => e.1 = k) with
  | none => none
  | some e => some e.2

end ContentExtraction

namespace Fixtures

/-- A two-page site: the home page links twice to the same child. -/
def env2 : Crawl.CrawlEnv :=
  { fetch := fun u =>
      if u = "https://a.com" then
        some { url := "https://a.com/", status := 200,
               html := some ["https://a.com/b", "https://a.com/b"] }
      else if u = "https://a.com/b" then
        some { url := "https://a.com/b", status := 200, html := some [] }
      else none
    existingPages := [] }

/-- The crawl job of the concrete runs. -/
def job2 : Crawl.CrawlJob := { domain := "a.com" }

/-- An environment whose only fetch throws. -/
def env3 : Crawl.CrawlEnv := { fetch := fun _ => none, existingPages := [] }

/-- A three-page chain: the child is crawled before the grandchild links
back to it, exercising in-edges discovered after the target was crawled. -/
def env4 : Crawl.CrawlEnv :=
  { fetch := fun u =>
      if u = "https://a.com" then
        some { url := "https://a.com/", status := 200,
               html := some ["https://a.com/b", "https://a.com/c"] }
      else if u = "https://a.com/b" then
        some { url := "https://a.com/b", status := 200, html := some [] }
      else if u = "https://a.com/c" then
        some { url := "https://a.com/c", status := 200, html := some ["https://a.com/b"] }
      else none
    existingPages := [] }

/-- One page that already has a content record. -/
def rowX : ContentExtraction.ExtPageRow :=
  { normalized_url := "https://a.com/x", url := "https://a.com/x" }

/-- A second page without a content record. -/
def rowY : ContentExtraction.ExtPageRow :=
  { normalized_url := "https://a.com/y", url := "https://a.com/y" }

/-- Extraction collaborators that always succeed. -/
def okPage : ContentExtraction.PageEnv :=
  { extractResult := .ok { payload := "c" }
    upsertError := none, deleteError := none, insertError := none }

/-- Every page of the job already has content: the onlyMissing filter
empties the selection. -/
def envAllCovered : ContentExtraction.ExtEnv :=
  { allPages := .ok [rowX]
    existingContentUrls := ["https://a.com/x"]
    perPage := fun _ => okPage
    dbCount := none }

/-- One page still missing content. -/
def envOneMissing : ContentExtraction.ExtEnv :=
  { allPages := .ok [rowX, rowY]
    existingContentUrls := ["https://a.com/x"]
    perPage := fun _ => okPage
    dbCount := some 1 }

/-- The final job record of running the crawl against env3. -/
def res3 : Crawl.CrawlResult :=
  { status := "completed", stop_reason := some "Queue exhausted",
    error_message := none, pages := [], external_links := [],
    pages_discovered := 0, pages_crawled := 1, duplicates_skipped := 0,
    queueRemaining := [], trace := [] }

/-- The final job record of running the crawl against env2. -/
def res2 : Crawl.CrawlResult :=
  { status := "completed", stop_reason := some "Queue exhausted",
    error_message := none,
    pages := [("https://a.com/",
      { normalized_url := "https://a.com/", status_code := 200,
        internal_links_out := 2, external_links_out := 0,
        internal_links_in := 0, external_links_in := 0 }),
      ("https://a.com/b",
      { normalized_url := "https://a.com/b", status_code := 200,
        internal_links_out := 0, external_links_out := 0,
        internal_links_in := 2, external_links_in := 0 })],
    external_links := [],
    pages_discovered := 2, pages_crawled := 2, duplicates_skipped := 1,
    queueRemaining := [],
    trace := [{ source := "https://a.com/", target := "https://a.com/b" },
      { source := "https://a.com/", target := "https://a.com/b" }] }

/-- The persisted child page of the env2 run. -/
def pageB : Crawl.Page :=
  { normalized_url := "https://a.com/b", status_code := 200,
    internal_links_out := 0, external_links_out := 0,
    internal_links_in := 2, external_links_in := 0 }

/-- Collaborators for which the upsert and the fallback insert both fail. -/
def envDoubleFail : ContentExtraction.ExtEnv :=
  { allPages := .ok [rowY]
    existingContentUrls := []
    perPage := fun _ =>
      { extractResult := .ok { payload := "c" }
        upsertError := some "conflict", deleteError := none, insertError := some "dup" }
    dbCount := some 0 }

end Fixtures

/-- A character list with no two adjacent slashes: the invariant produced by the slash-collapsing regex replace. -/
def NoDoubleSlash (l : List Char) : Prop :=
  List.Chain' (fun a b => ¬(a = '/' ∧ b = '/')) l

/-- The shape of a fully normalized pathname: leading slash, no duplicate slashes, and no trailing slash beyond the root. -/
def PathOk (l : List Char) : Prop :=
  listStarts "/".data l = true
  ∧ NoDoubleSlash l
  ∧ (l.length ≤ 1 ∨ ¬ l.getLast? = some '/')

/-- A scheme the URL parser accepts: nonempty and all scheme characters. -/
def SchemeOk (s : String) : Prop :=
  ¬ s.data = [] ∧ ∀ c ∈ s.data, isSchemeChar c = true

/-- A hostname as produced by the URL parser: nonempty and free of the delimiter characters that end or structure an authority. -/
def HostOk (s : String) : Prop :=
  ¬ s.data = [] ∧ ∀ c ∈ s.data,
    ¬ c = '/' ∧ ¬ c = '?' ∧ ¬ c = '#' ∧ ¬ c = ':' ∧ ¬ c = '@'

/-- A pathname as produced by the URL parser: slash-initial and free of query/fragment delimiters. -/
def PathChsOk (s : String) : Prop :=
  listStarts "/".data s.data = true ∧ ∀ c ∈ s.data, ¬ c = '?' ∧ ¬ c = '#'

/-- Query pairs as produced by URLSearchParams parsing: keys free of separator, hash and equals characters; values free of separator and hash characters. -/
def QueryOk (q : List (String × String)) : Prop :=
  ∀ p ∈ q, (∀ c ∈ p.1.data, ¬ c = '&' ∧ ¬ c = '#' ∧ ¬ c = '=')
    ∧ (∀ c ∈ p.2.data, ¬ c = '&' ∧ ¬ c = '#')

/-- Well-formedness of every URL object the parser can return: all four textual components carry only characters the corresponding parsing stage lets through. -/
def UrlWf (u : Url) : Prop :=
  SchemeOk u.scheme ∧ HostOk u.host ∧ PathChsOk u.path ∧ QueryOk u.query

/-- The URL object assembled by parseUrl from the outcome of its scheme and authority stages. -/
def parsedOf (scD hostCs : List Char) (port0 : Option Nat) (rest2 : List Char) : Url :=
  { scheme := String.mk scD, host := String.mk hostCs,
    port := if (strLower (String.mk scD) = "http" ∧ port0 = some 80)
        ∨ (strLower (String.mk scD) = "https" ∧ port0 = some 443)
      then none else port0,
    path := if (splitPath rest2).1 = [] then "/" else String.mk (splitPath rest2).1,
    query := parseQuery (splitQuery (splitPath rest2).2).1,
    frag := parseFrag (splitQuery (splitPath rest2).2).2 }

namespace ContentExtraction

theorem lookupC_upsert_self (store : ContentStore) (k : ContentKey) (c : Content) :
    lookupC (upsertRecord store k c) k = some c := by
  induction store with
  | nil => simp [upsertRecord, lookupC, List.find?]
  | cons e rest ih =>
    by_cases h : e.1 = k
    · simp [upsertRecord, h, lookupC, List.find?]
    · simpa [upsertRecord, h, lookupC, List.find?] using ih

theorem processPage_cases (sid : String) (pp : String → PageEnv)
    (st : ExtState) (row : ExtPageRow) :
    ((processPage sid pp st row).pagesExtracted = st.pagesExtracted + 1
      ∧ (processPage sid pp st row).pagesFailed = st.pagesFailed
      ∧ (processPage sid pp st row).failedUrls = st.failedUrls)
    ∨ ((processPage sid pp st row).pagesExtracted = st.pagesExtracted
      ∧ (processPage sid pp st row).pagesFailed = st.pagesFailed + 1
      ∧ ∃ e, (processPage sid pp st row).failedUrls = st.failedUrls ++ [e]) := by
  cases hx : (pp (fetchUrlOf row)).extractResult with
  | error msg =>
    right
    refine ⟨?_, ?_, ⟨(fetchUrlOf row, msg), ?_⟩⟩ <;> simp [processPage, hx]
  | ok c =>
    cases hu : (pp (fetchUrlOf row)).upsertError with
    | none => left; refine ⟨?_, ?_, ?_⟩ <;> simp [processPage, hx, hu]
    | some e1 =>
      cases hi : (pp (fetchUrlOf row)).insertError with
      | none => left; refine ⟨?_, ?_, ?_⟩ <;> simp [processPage, hx, hu, hi]
      | some e2 =>
        right
        refine ⟨?_, ?_, ⟨(fetchUrlOf row,
          "Database error (upsert failed, insert also failed): "
            ++ e2 ++ ". Original: " ++ e1), ?_⟩⟩ <;> simp [processPage, hx, hu, hi]

theorem extFold_counts (sid : String) (pp : String → PageEnv) :
    ∀ (rows : List ExtPageRow) (st : ExtState),
      (rows.foldl (processPage sid pp) st).pagesExtracted
          + (rows.foldl (processPage sid pp) st).pagesFailed
        = st.pagesExtracted + st.pagesFailed + rows.length := by
  intro rows
  induction rows with
  | nil => intro st; simp
  | cons row rest ih =>
    intro st
    have h := ih (processPage sid pp st row)
    simp only [List.foldl_cons, List.length_cons] at h ⊢
    rw [h]
    rcases processPage_cases sid pp st row with ⟨h1, h2, _⟩ | ⟨h1, h2, _⟩ <;>
      rw [h1, h2] <;> omega

theorem extFold_failedUrls (sid : String) (pp : String → PageEnv) :
    ∀ (rows : List ExtPageRow) (st : ExtState),
      (rows.foldl (processPage sid pp) st).failedUrls.length + st.pagesFailed
        = (rows.foldl (processPage sid pp) st).pagesFailed + st.failedUrls.length := by
  intro rows
  induction rows with
  | nil => intro st; simp [Nat.add_comm]
  | cons row rest ih =>
    intro st
    have h := ih (processPage sid pp st row)
    simp only [List.foldl_cons] at h ⊢
    rcases processPage_cases sid pp st row with ⟨_, h2, h3⟩ | ⟨_, h2, ⟨e, h3⟩⟩
    · rw [h2, h3] at h
      omega
    · rw [h2, h3] at h
      simp only [List.length_append, List.length_cons, List.length_nil] at h
      omega

end ContentExtraction

/-- C9: startContentExtraction throws exactly when the crawl job lookup comes
back empty or the extraction-job insert fails; whenever the crawl job exists
and the insert succeeds it returns a running extraction job for that sitemap,
for a crawl job of any status whatsoever (completion is not required). -/
theorem C9_startContentExtraction_gating :
    (∀ (lookup : Option ContentExtraction.CrawlJobRow) (insErr : Option String)
        (sid : String) (om : Bool),
      (∃ msg, ContentExtraction.startContentExtraction lookup insErr sid om = .error msg)
        ↔ (lookup = none ∨ insErr ≠ none))
    ∧ (∀ (cj : ContentExtraction.CrawlJobRow) (sid : String) (om : Bool),
        ContentExtraction.startContentExtraction (some cj) none sid om
          = .ok { crawl_job_id := sid, status := "running", only_missing := om }) := by
  constructor
  · intro lookup insErr sid om
    cases lookup with
    | none => simp [ContentExtraction.startContentExtraction]
    | some cj =>
      cases insErr with
      | none => simp [ContentExtraction.startContentExtraction]
      | some msg => simp [ContentExtraction.startContentExtraction]
  · intro cj sid om
    rfl

/-- C5: each content record is persisted by an upsert keyed by
(crawl_job_id, normalized_url); an upsert failure falls back to delete-by-key
then a fresh insert; when the fallback insert also fails, exactly that page is
counted failed once, with a message combining both errors, and a batch
extraction whose page load succeeded still completes — per-page persistence
failures never fail the job. -/
theorem C5_upsert_fallback :
    (∀ (sid : String) (pp : String → ContentExtraction.PageEnv)
        (st : ContentExtraction.ExtState) (row : ContentExtraction.ExtPageRow)
        (c : ContentExtraction.Content),
      (pp (ContentExtraction.fetchUrlOf row)).extractResult = .ok c →
      (pp (ContentExtraction.fetchUrlOf row)).upsertError = none →
      ContentExtraction.processPage sid pp st row
          = { st with
              store := ContentExtraction.upsertRecord st.store
                (sid, (Norm2.normalizeUrl (ContentExtraction.fetchUrlOf row)).getD
                  row.normalized_url) c
              pagesExtracted := st.pagesExtracted + 1 }
        ∧ ContentExtraction.lookupC (ContentExtraction.processPage sid pp st row).store
            (sid, (Norm2.normalizeUrl (ContentExtraction.fetchUrlOf row)).getD
              row.normalized_url) = some c)
    ∧ (∀ (sid : String) (pp : String → ContentExtraction.PageEnv)
        (st : ContentExtraction.ExtState) (row : ContentExtraction.ExtPageRow)
        (c : ContentExtraction.Content) (e1 e2 : String),
      (pp (ContentExtraction.fetchUrlOf row)).extractResult = .ok c →
      (pp (ContentExtraction.fetchUrlOf row)).upsertError = some e1 →
      (pp (ContentExtraction.fetchUrlOf row)).insertError = some e2 →
      (ContentExtraction.processPage sid pp st row).pagesFailed = st.pagesFailed + 1
        ∧ (ContentExtraction.processPage sid pp st row).pagesExtracted = st.pagesExtracted
        ∧ (ContentExtraction.processPage sid pp st row).failedUrls
            = st.failedUrls ++ [(ContentExtraction.fetchUrlOf row,
                "Database error (upsert failed, insert also failed): "
                  ++ e2 ++ ". Original: " ++ e1)])
    ∧ (∀ (env : ContentExtraction.ExtEnv) (sid : String) (om : Bool)
        (store0 : ContentExtraction.ContentStore)
        (pagesList : List ContentExtraction.ExtPageRow),
      env.allPages = .ok pagesList →
      (ContentExtraction.runContentExtraction env sid om store0).1.status = "completed") := by
  refine ⟨?_, ?_, ?_⟩
  · intro sid pp st row c hx hu
    have h1 : ContentExtraction.processPage sid pp st row
        = { st with
            store := ContentExtraction.upsertRecord st.store
              (sid, (Norm2.normalizeUrl (ContentExtraction.fetchUrlOf row)).getD
                row.normalized_url) c
            pagesExtracted := st.pagesExtracted + 1 } := by
      simp only [ContentExtraction.processPage, hx, hu]
    refine ⟨h1, ?_⟩
    rw [h1]
    exact ContentExtraction.lookupC_upsert_self _ _ _
  · intro sid pp st row c e1 e2 hx hu hi
    refine ⟨?_, ?_, ?_⟩ <;> simp only [ContentExtraction.processPage, hx, hu, hi]
  · intro env sid om store0 pagesList henv
    unfold ContentExtraction.runContentExtraction
    rw [henv]
    by_cases h0 : pagesList = []
    · simp [h0]
    · simp only [h0, if_false]
      by_cases h1 : ContentExtraction.selectedPages env pagesList om = []
      · simp [h1]
      · simp [h1]

/-- C5 witness: the fallback double failure on a concrete page is counted as
exactly one failed page with the combined message, and the concrete job still
completes. -/
theorem C5_upsert_fallback_witness :
    ((ContentExtraction.processPage "job1" Fixtures.envDoubleFail.perPage
        { store := [], pagesExtracted := 0, pagesFailed := 0, failedUrls := [] }
        Fixtures.rowY).pagesFailed = 0 + 1
      ∧ (ContentExtraction.processPage "job1" Fixtures.envDoubleFail.perPage
          { store := [], pagesExtracted := 0, pagesFailed := 0, failedUrls := [] }
          Fixtures.rowY).pagesExtracted = 0
      ∧ (ContentExtraction.processPage "job1" Fixtures.envDoubleFail.perPage
          { store := [], pagesExtracted := 0, pagesFailed := 0, failedUrls := [] }
          Fixtures.rowY).failedUrls
        = [] ++ [(ContentExtraction.fetchUrlOf Fixtures.rowY,
            "Database error (upsert failed, insert also failed): "
              ++ "dup" ++ ". Original: " ++ "conflict")])
    ∧ (ContentExtraction.runContentExtraction Fixtures.envDoubleFail "job1" true []).1.status
        = "completed" :=
  ⟨C5_upsert_fallback.2.1 "job1" Fixtures.envDoubleFail.perPage
      { store := [], pagesExtracted := 0, pagesFailed := 0, failedUrls := [] }
      Fixtures.rowY { payload := "c" } "conflict" "dup" rfl rfl rfl,
    C5_upsert_fallback.2.2 Fixtures.envDoubleFail "job1" true [] [Fixtures.rowY] rfl⟩

/-- C10 counterexample: with onlyMissing and every page already covered, the
job completes with pages_total equal to the total page count while zero pages
were selected, so pages_extracted + pages_failed = 0 differs from pages_total. -/
theorem C10_total_mismatch_counterexample :
    (ContentExtraction.runContentExtraction Fixtures.envAllCovered "job1" true []).1.status
        = "completed"
    ∧ (ContentExtraction.runContentExtraction Fixtures.envAllCovered "job1" true []).1.pages_total
        = some 1
    ∧ (ContentExtraction.runContentExtraction Fixtures.envAllCovered "job1" true []).1.pages_extracted
        = some 0
    ∧ (ContentExtraction.runContentExtraction Fixtures.envAllCovered "job1" true []).1.pages_failed
        = some 0 := by
  refine ⟨?_, ?_, ?_, ?_⟩ <;> rfl

/-- C10 (amended): every selected page increments exactly one of the two
counters, so a run whose selected processing set is nonempty completes with
pages_extracted + pages_failed = pages_total = the selected count and a
failed_urls list of exactly pages_failed entries; when onlyMissing filtering
empties a nonempty page set, the job instead completes with pages_total equal
to the total page count and zero extracted/failed. -/
theorem C10_counter_partition (env : ContentExtraction.ExtEnv) (sid : String)
    (om : Bool) (store0 : ContentExtraction.ContentStore)
    (allPages : List ContentExtraction.ExtPageRow)
    (henv : env.allPages = .ok allPages) :
    (ContentExtraction.selectedPages env allPages om ≠ [] →
      (ContentExtraction.runContentExtraction env sid om store0).1.status = "completed"
      ∧ (ContentExtraction.runContentExtraction env sid om store0).1.pages_total
          = some (ContentExtraction.selectedPages env allPages om).length
      ∧ (ContentExtraction.runContentExtraction env sid om store0).1.pages_extracted.getD 0
            + (ContentExtraction.runContentExtraction env sid om store0).1.pages_failed.getD 0
          = (ContentExtraction.selectedPages env allPages om).length
      ∧ ((ContentExtraction.runContentExtraction env sid om store0).1.failed_urls.getD []).length
          = (ContentExtraction.runContentExtraction env sid om store0).1.pages_failed.getD 0)
    ∧ (allPages ≠ [] → ContentExtraction.selectedPages env allPages om = [] →
      (ContentExtraction.runContentExtraction env sid om store0).1.status = "completed"
      ∧ (ContentExtraction.runContentExtraction env sid om store0).1.pages_total
          = some allPages.length
      ∧ (ContentExtraction.runContentExtraction env sid om store0).1.pages_extracted = some 0
      ∧ (ContentExtraction.runContentExtraction env sid om store0).1.pages_failed = some 0) := by
  constructor
  · intro hsel
    have hall : allPages ≠ [] := by
      intro h0
      apply hsel
      simp [ContentExtraction.selectedPages, h0]
    have hcount := ContentExtraction.extFold_counts sid env.perPage
      (ContentExtraction.selectedPages env allPages om)
      { store := store0, pagesExtracted := 0, pagesFailed := 0, failedUrls := [] }
    have hfail := ContentExtraction.extFold_failedUrls sid env.perPage
      (ContentExtraction.selectedPages env allPages om)
      { store := store0, pagesExtracted := 0, pagesFailed := 0, failedUrls := [] }
    simp only [List.length_nil, Nat.add_zero] at hfail
    simp only [ContentExtraction.runContentExtraction, henv, if_neg hall, if_neg hsel]
    refine ⟨trivial, trivial, ?_, ?_⟩
    · simp only [Option.getD_some]
      simpa using hcount
    · by_cases hz : 0 < ((ContentExtraction.selectedPages env allPages om).foldl
          (ContentExtraction.processPage sid env.perPage)
          { store := store0, pagesExtracted := 0, pagesFailed := 0,
            failedUrls := [] }).failedUrls.length
      · rw [if_pos hz]
        simp only [Option.getD_some]
        omega
      · rw [if_neg hz]
        simp only [Option.getD_none, Option.getD_some, List.length_nil]
        omega
  · intro hall hsel
    simp [ContentExtraction.runContentExtraction, henv, if_neg hall, hsel]

/-- C10 witness: the amended partition at a concrete run whose selection
keeps exactly one page. -/
theorem C10_counter_partition_witness :
    (ContentExtraction.runContentExtraction Fixtures.envOneMissing "job1" true []).1.status
        = "completed"
      ∧ (ContentExtraction.runContentExtraction Fixtures.envOneMissing "job1" true []).1.pages_total
        = some (ContentExtraction.selectedPages Fixtures.envOneMissing
            [Fixtures.rowX, Fixtures.rowY] true).length
      ∧ (ContentExtraction.runContentExtraction Fixtures.envOneMissing "job1" true []).1.pages_extracted.getD 0
          + (ContentExtraction.runContentExtraction Fixtures.envOneMissing "job1" true []).1.pages_failed.getD 0
        = (ContentExtraction.selectedPages Fixtures.envOneMissing
            [Fixtures.rowX, Fixtures.rowY] true).length
      ∧ ((ContentExtraction.runContentExtraction Fixtures.envOneMissing "job1" true []).1.failed_urls.getD []).length
        = (ContentExtraction.runContentExtraction Fixtures.envOneMissing "job1" true []).1.pages_failed.getD 0 :=
  (C10_counter_partition Fixtures.envOneMissing "job1" true []
    [Fixtures.rowX, Fixtures.rowY] rfl).1 (by decide)

/-- C4: isPrimaryDomain holds exactly when the URL's host, lowercased and with
a leading www. stripped, equals the job's primary domain; subdomains are not
implicitly included; and the link-classification flag of
normalizeAndClassifyUrl is precisely the negation of the same isPrimaryDomain
test that seed validation (src/crawl.js line 233), frontier dequeue (line 387)
and the enqueue allow-list (line 590) apply. -/
theorem C4_exact_domain_scope :
    (∀ url d, Norm2.isPrimaryDomain url d = true ↔
      ∃ u, parseUrl url = some u ∧ stripWww (strLower u.host) = d)
    ∧ Norm2.isPrimaryDomain "https://blog.example.com/" "example.com" = false
    ∧ Norm2.isPrimaryDomain "https://www.example.com/" "example.com" = true
    ∧ (∀ link base d n e, Norm2.normalizeAndClassifyUrl link base d = (some n, e) →
      e = ! Norm2.isPrimaryDomain n d) := by
  refine ⟨?_, by decide, by decide, ?_⟩
  · intro url d
    unfold Norm2.isPrimaryDomain Norm2.extractPrimaryDomain
    cases h : parseUrl url with
    | none => simp
    | some u => simp [decide_eq_true_iff]
  · intro link base d n e
    cases h1 : parseUrl link with
    | none => simp [Norm2.normalizeAndClassifyUrl, h1]
    | some pu =>
      cases h2 : Norm2.normalizeUrl (serializeUrl pu) with
      | none => simp [Norm2.normalizeAndClassifyUrl, h1, h2]
      | some normalized =>
        simp only [Norm2.normalizeAndClassifyUrl, h1, h2, Prod.mk.injEq, Option.some.injEq]
        intro h
        obtain ⟨hn, he⟩ := h
        subst hn
        unfold Norm2.isPrimaryDomain
        cases h3 : Norm2.extractPrimaryDomain normalized with
        | none => simp [← he, h3]
        | some d0 => simp [← he, h3, decide_not]

/-- C4 witness: the classification flag at a concrete internal link equals
the negated isPrimaryDomain check of the other call sites. -/
theorem C4_exact_domain_scope_witness :
    false = ! Norm2.isPrimaryDomain "https://a.com/x" "a.com" :=
  C4_exact_domain_scope.2.2.2 "https://a.com/x" "https://a.com/" "a.com"
    "https://a.com/x" false (by decide)

namespace Crawl

theorem enqueueStep_inv (pd : String) (depth : Nat) (pm : List (String × Page))
    (fu : String) (acc : EnqAcc) (link : String)
    (h1 : (acc.queue.map (fun e => e.normalized_url)).Nodup)
    (h2 : ∀ e ∈ acc.queue, e.normalized_url ∈ acc.seenUrls) :
    ((enqueueStep pd depth pm fu acc link).queue.map (fun e => e.normalized_url)).Nodup
    ∧ ∀ e ∈ (enqueueStep pd depth pm fu acc link).queue,
        e.normalized_url ∈ (enqueueStep pd depth pm fu acc link).seenUrls := by
  cases hskip : shouldSkipUrl link with
  | true => simp only [enqueueStep, hskip, if_true]; exact ⟨h1, h2⟩
  | false =>
    cases hres : resolveUrl link fu with
    | none =>
      simp only [enqueueStep, hskip, Bool.false_eq_true, if_false, hres]
      exact ⟨h1, h2⟩
    | some resolvedLink =>
      cases hcl : Norm2.normalizeAndClassifyUrl link fu pd with
      | mk fst snd =>
        cases snd with
        | true =>
          simp only [enqueueStep, hskip, Bool.false_eq_true, if_false, hres, hcl]
          exact ⟨h1, h2⟩
        | false =>
          cases fst with
          | none =>
            simp only [enqueueStep, hskip, Bool.false_eq_true, if_false, hres, hcl]
            exact ⟨h1, h2⟩
          | some nl =>
            by_cases hpd : Norm2.isPrimaryDomain nl pd = true
            · cases hseen : (acc.seenUrls.contains nl || (lookupA pm nl).isSome) with
              | true =>
                simp only [enqueueStep, hskip, Bool.false_eq_true, if_false, hres, hcl,
                  hpd, not_true, hseen, if_true]
                exact ⟨h1, h2⟩
              | false =>
                by_cases hdep : MAX_DEPTH ≤ depth
                · simp only [enqueueStep, hskip, Bool.false_eq_true, if_false, hres, hcl,
                    hpd, not_true, hseen, if_pos hdep]
                  exact ⟨h1, h2⟩
                · have hnl : nl ∉ acc.seenUrls := by
                    intro hmem
                    have hc : acc.seenUrls.contains nl = true := List.elem_iff.mpr hmem
                    rw [hc] at hseen
                    simp at hseen
                  simp only [enqueueStep, hskip, Bool.false_eq_true, if_false, hres, hcl,
                    hpd, not_true, hseen, if_neg hdep]
                  constructor
                  · simp only [List.map_append, List.map_cons, List.map_nil]
                    rw [List.nodup_append]
                    refine ⟨h1, List.nodup_singleton _, ?_⟩
                    intro x hx
                    simp only [List.mem_singleton]
                    intro hxnl
                    subst hxnl
                    obtain ⟨e, he, heq⟩ := List.mem_map.mp hx
                    exact hnl (heq ▸ h2 e he)
                  · intro e he
                    rcases List.mem_append.mp he with he0 | he1
                    · exact List.mem_append_left _ (h2 e he0)
                    · rw [List.mem_singleton] at he1
                      subst he1
                      exact List.mem_append_right _ (List.mem_singleton_self nl)
            · simp only [enqueueStep, hskip, Bool.false_eq_true, if_false, hres, hcl]
              rw [if_pos hpd]
              exact ⟨h1, h2⟩

theorem enqueue_fold_inv (pd : String) (depth : Nat) (pm : List (String × Page))
    (fu : String) :
    ∀ (links : List String) (acc : EnqAcc),
      (acc.queue.map (fun e => e.normalized_url)).Nodup →
      (∀ e ∈ acc.queue, e.normalized_url ∈ acc.seenUrls) →
      ((links.foldl (enqueueStep pd depth pm fu) acc).queue.map
          (fun e => e.normalized_url)).Nodup
      ∧ ∀ e ∈ (links.foldl (enqueueStep pd depth pm fu) acc).queue,
          e.normalized_url ∈ (links.foldl (enqueueStep pd depth pm fu) acc).seenUrls := by
  intro links
  induction links with
  | nil => intro acc h1 h2; exact ⟨h1, h2⟩
  | cons link rest ih =>
    intro acc h1 h2
    simp only [List.foldl_cons]
    obtain ⟨g1, g2⟩ := enqueueStep_inv pd depth pm fu acc link h1 h2
    exact ih _ g1 g2

theorem crawlStep_inv (env : CrawlEnv) (pd : String) (st : CrawlState)
    (h : QueueInv st) : QueueInv (crawlStep env pd st) := by
  obtain ⟨h1, h2⟩ := h
  cases hq : st.queue with
  | nil =>
    simp only [crawlStep, hq]
    exact ⟨h1, h2⟩
  | cons e rest =>
    have h1r : (rest.map (fun x => x.normalized_url)).Nodup := by
      rw [hq] at h1
      simp only [List.map_cons] at h1
      exact h1.of_cons
    have h2r : ∀ x ∈ rest, x.normalized_url ∈ st.seenUrls := by
      intro x hx
      exact h2 x (by rw [hq]; exact List.mem_cons_of_mem _ hx)
    by_cases hd : MAX_DEPTH < e.depth
    · simp only [crawlStep, hq]
      rw [if_pos hd]
      exact ⟨h1r, h2r⟩
    · by_cases hpd : Norm2.isPrimaryDomain e.normalized_url pd = true
      · cases hdup : (lookupA st.pagesMap e.normalized_url).isSome with
        | true =>
          simp only [crawlStep, hq]
          rw [if_neg hd, if_neg (not_not_intro hpd), if_pos hdup]
          exact ⟨h1r, h2r⟩
        | false =>
          cases hskip : shouldSkipUrl e.original_url with
          | true =>
            simp only [crawlStep, hq]
            rw [if_neg hd, if_neg (not_not_intro hpd),
              if_neg (by simp [hdup]), if_pos hskip]
            exact ⟨h1r, h2r⟩
          | false =>
            cases hf : env.fetch e.original_url with
            | none =>
              simp only [crawlStep, hq]
              rw [if_neg hd, if_neg (not_not_intro hpd),
                if_neg (by simp [hdup]), if_neg (by simp [hskip])]
              simp only [hf]
              exact ⟨h1r, h2r⟩
            | some fr =>
              cases hh : fr.html with
              | none =>
                simp only [crawlStep, hq]
                rw [if_neg hd, if_neg (not_not_intro hpd),
                  if_neg (by simp [hdup]), if_neg (by simp [hskip])]
                simp only [hf, hh]
                exact ⟨h1r, h2r⟩
              | some links =>
                simp only [crawlStep, hq]
                rw [if_neg hd, if_neg (not_not_intro hpd),
                  if_neg (by simp [hdup]), if_neg (by simp [hskip])]
                simp only [hf, hh]
                exact ⟨(enqueue_fold_inv pd e.depth _ fr.url links _ h1r h2r).1,
                  (enqueue_fold_inv pd e.depth _ fr.url links _ h1r h2r).2⟩
      · simp only [crawlStep, hq]
        rw [if_neg hd, if_pos hpd]
        exact ⟨h1r, h2r⟩

end Crawl

/-- C7: the frontier never holds the same normalized URL twice and every
queued URL is already in the seen-set — the property holds initially and is
preserved by every loop iteration; moreover one enqueue-loop iteration either
leaves the accumulator unchanged, counts a duplicate, or pushes exactly one
entry at depth+1 whose URL was unseen (with depth below MAX_DEPTH), adding it
to the seen-set together with the push. -/
theorem C7_frontier_never_duplicates :
    (∀ (env : Crawl.CrawlEnv) (seedNormalized seedUrl pd : String),
      Crawl.QueueInv (Crawl.initState env seedNormalized seedUrl pd))
    ∧ (∀ (env : Crawl.CrawlEnv) (pd : String) (st : Crawl.CrawlState),
      Crawl.QueueInv st → Crawl.QueueInv (Crawl.crawlStep env pd st))
    ∧ (∀ (pd : String) (depth : Nat) (pm : List (String × Crawl.Page))
        (fu : String) (acc : Crawl.EnqAcc) (link : String),
      Crawl.enqueueStep pd depth pm fu acc link = acc
      ∨ Crawl.enqueueStep pd depth pm fu acc link
          = { acc with duplicatesSkipped := acc.duplicatesSkipped + 1 }
      ∨ ∃ nl resolved,
          nl ∉ acc.seenUrls
          ∧ Crawl.lookupA pm nl = none
          ∧ depth < Crawl.MAX_DEPTH
          ∧ Crawl.enqueueStep pd depth pm fu acc link
            = { acc with
                seenUrls := acc.seenUrls ++ [nl]
                queue := acc.queue ++
                  [{ normalized_url := nl, depth := depth + 1, original_url := resolved }]
                enqueuedCount := acc.enqueuedCount + 1 }) := by
  refine ⟨?_, ?_, ?_⟩
  · intro env seedNormalized seedUrl pd
    constructor
    · simp [Crawl.initState]
    · intro e he
      simp only [Crawl.initState, List.mem_singleton] at he
      subst he
      simp only [Crawl.initState]
      exact List.mem_append_right _ (List.mem_singleton_self _)
  · intro env pd st h
    exact Crawl.crawlStep_inv env pd st h
  · intro pd depth pm fu acc link
    cases hskip : Crawl.shouldSkipUrl link with
    | true =>
      left
      simp only [Crawl.enqueueStep, hskip, if_true]
    | false =>
      cases hres : Crawl.resolveUrl link fu with
      | none =>
        left
        simp only [Crawl.enqueueStep, hskip, Bool.false_eq_true, if_false, hres]
      | some resolvedLink =>
        cases hcl : Norm2.normalizeAndClassifyUrl link fu pd with
        | mk fst snd =>
          cases snd with
          | true =>
            left
            simp only [Crawl.enqueueStep, hskip, Bool.false_eq_true, if_false, hres, hcl]
          | false =>
            cases fst with
            | none =>
              left
              simp only [Crawl.enqueueStep, hskip, Bool.false_eq_true, if_false, hres, hcl]
            | some nl =>
              by_cases hpd : Norm2.isPrimaryDomain nl pd = true
              · cases hseen : (acc.seenUrls.contains nl || (Crawl.lookupA pm nl).isSome) with
                | true =>
                  right; left
                  simp only [Crawl.enqueueStep, hskip, Bool.false_eq_true, if_false,
                    hres, hcl]
                  rw [if_neg (not_not_intro hpd), if_pos hseen]
                | false =>
                  by_cases hdep : Crawl.MAX_DEPTH ≤ depth
                  · left
                    simp only [Crawl.enqueueStep, hskip, Bool.false_eq_true, if_false,
                      hres, hcl]
                    rw [if_neg (not_not_intro hpd), if_neg (by rw [hseen]; simp),
                      if_pos hdep]
                  · right; right
                    refine ⟨nl, resolvedLink, ?_, ?_, by omega, ?_⟩
                    · intro hmem
                      have hcontr := List.elem_iff.mpr hmem
                      have hb : acc.seenUrls.contains nl = false := by
                        cases hc : acc.seenUrls.contains nl with
                        | false => rfl
                        | true => rw [hc] at hseen; simp at hseen
                      have hb2 : List.elem nl acc.seenUrls = false := hb
                      rw [hb2] at hcontr
                      exact Bool.false_ne_true hcontr
                    · cases hc : Crawl.lookupA pm nl with
                      | none => rfl
                      | some v =>
                        rw [show (Crawl.lookupA pm nl).isSome = true by rw [hc]; rfl]
                          at hseen
                        simp at hseen
                    · simp only [Crawl.enqueueStep, hskip, Bool.false_eq_true, if_false,
                        hres, hcl]
                      rw [if_neg (not_not_intro hpd), if_neg (by rw [hseen]; simp),
                        if_neg hdep]
              · left
                simp only [Crawl.enqueueStep, hskip, Bool.false_eq_true, if_false,
                  hres, hcl]
                rw [if_pos hpd]

namespace Crawl

theorem crawlLoop_exit (env : CrawlEnv) (pd : String) :
    ∀ (fuel : Nat) (st st2 : CrawlState), crawlLoop env pd fuel st = some st2 →
      st2.queue = [] ∨ MAX_PAGES ≤ st2.pagesCrawled := by
  intro fuel
  induction fuel with
  | zero => intro st st2 h; simp [crawlLoop] at h
  | succ n ih =>
    intro st st2 h
    rw [crawlLoop] at h
    by_cases hc : st.queue ≠ [] ∧ st.pagesCrawled < MAX_PAGES
    · rw [if_pos hc] at h
      exact ih _ _ h
    · rw [if_neg hc] at h
      cases h
      push_neg at hc
      by_cases hq : st.queue = []
      · exact Or.inl hq
      · exact Or.inr (hc hq)

end Crawl

/-- C6: a crawl that completes did so either because the page budget was
reached or because the frontier ran dry; the page limit records the
stop reason "MAX_PAGES limit reached (1000)", exhaustion records
"Queue exhausted", the two are distinct, and in particular a completed run
that still holds frontier entries always records the page-limit reason. -/
theorem C6_stop_reason_priority (env : Crawl.CrawlEnv) (job : Crawl.CrawlJob)
    (fuel : Nat) (res : Crawl.CrawlResult)
    (hrun : Crawl.runCrawl env job fuel = some res)
    (hdone : res.status = "completed") :
    (res.queueRemaining = [] ∨ Crawl.MAX_PAGES ≤ res.pages_crawled)
    ∧ (Crawl.MAX_PAGES ≤ res.pages_crawled →
        res.stop_reason = some "MAX_PAGES limit reached (1000)")
    ∧ (res.pages_crawled < Crawl.MAX_PAGES →
        res.queueRemaining = [] ∧ res.stop_reason = some "Queue exhausted")
    ∧ (res.queueRemaining ≠ [] →
        res.stop_reason = some "MAX_PAGES limit reached (1000)")
    ∧ "MAX_PAGES limit reached (1000)" ≠ "Queue exhausted" := by
  unfold Crawl.runCrawl at hrun
  split at hrun
  · cases hrun
    simp [Crawl.invalidSeedResult] at hdone
  · split at hrun
    · cases hrun
      simp [Crawl.invalidSeedResult] at hdone
    · split at hrun
      · cases hrun
        simp [Crawl.invalidSeedResult] at hdone
      · split at hrun
        · cases hrun
        · rename_i st hloop
          cases hrun
          have hexit := Crawl.crawlLoop_exit _ _ _ _ _ hloop
          have hmsg : ("MAX_PAGES limit reached (" ++ toString Crawl.MAX_PAGES ++ ")")
              = "MAX_PAGES limit reached (1000)" := by rfl
          refine ⟨hexit, ?_, ?_, ?_, by decide⟩
          · intro hmax
            simp only [Crawl.finalizeCrawl, Crawl.stopReasonOf] at hmax ⊢
            rw [if_pos hmax]
            simp only [Option.some.injEq]
            exact hmsg
          · intro hlt
            simp only [Crawl.finalizeCrawl, Crawl.stopReasonOf] at hlt hexit ⊢
            have hq : st.queue = [] := by
              rcases hexit with hq | hmax
              · exact hq
              · omega
            refine ⟨hq, ?_⟩
            rw [if_neg (by omega : ¬ Crawl.MAX_PAGES ≤ st.pagesCrawled), if_pos hq]
          · intro hne
            simp only [Crawl.finalizeCrawl, Crawl.stopReasonOf] at hne hexit ⊢
            have hmax : Crawl.MAX_PAGES ≤ st.pagesCrawled := by
              rcases hexit with hq | hmax
              · exact absurd hq hne
              · exact hmax
            rw [if_pos hmax]
            simp only [Option.some.injEq]
            exact hmsg

/-- C6 witness: a concrete completed run with an exhausted frontier records
the exhaustion reason, with the page-limit reason distinct. -/
theorem C6_stop_reason_priority_witness :
    (Fixtures.res3.queueRemaining = [] ∨ Crawl.MAX_PAGES ≤ Fixtures.res3.pages_crawled)
    ∧ (Crawl.MAX_PAGES ≤ Fixtures.res3.pages_crawled →
        Fixtures.res3.stop_reason = some "MAX_PAGES limit reached (1000)")
    ∧ (Fixtures.res3.pages_crawled < Crawl.MAX_PAGES →
        Fixtures.res3.queueRemaining = [] ∧ Fixtures.res3.stop_reason = some "Queue exhausted")
    ∧ (Fixtures.res3.queueRemaining ≠ [] →
        Fixtures.res3.stop_reason = some "MAX_PAGES limit reached (1000)")
    ∧ "MAX_PAGES limit reached (1000)" ≠ "Queue exhausted" :=
  C6_stop_reason_priority Fixtures.env3 Fixtures.job2 2 Fixtures.res3 (by rfl) (by rfl)

namespace Crawl

theorem lookupA_setA_self {α : Type} (m : List (String × α)) (k : String) (v : α) :
    lookupA (setA m k v) k = some v := by
  induction m with
  | nil => simp [setA, lookupA]
  | cons e rest ih =>
    by_cases h : e.1 = k
    · simp [setA, h, lookupA]
    · simp only [setA]
      rw [if_neg h]
      simp only [lookupA, List.find?] at ih ⊢
      rw [show (decide (e.1 = k)) = false by simp [h]]
      exact ih

theorem lookupA_setA_ne {α : Type} (m : List (String × α)) (k : String) (v : α)
    (k2 : String) (h : ¬ k2 = k) : lookupA (setA m k v) k2 = lookupA m k2 := by
  induction m with
  | nil =>
    simp only [setA, lookupA, List.find?]
    rw [show (decide (k = k2)) = false from by
      simp only [decide_eq_false_iff_not]
      exact fun hh => h hh.symm]
  | cons e rest ih =>
    by_cases he : e.1 = k
    · simp only [setA]
      rw [if_pos he]
      by_cases he2 : e.1 = k2
      · exact absurd (he2.symm.trans he) h
      · simp only [lookupA, List.find?]
        rw [show (decide (e.1 = k2)) = false by simp [he2]]
    · simp only [setA]
      rw [if_neg he]
      by_cases he2 : e.1 = k2
      · simp only [lookupA, List.find?]
        rw [show (decide (e.1 = k2)) = true by simp [he2]]
      · simp only [lookupA, List.find?] at ih ⊢
        rw [show (decide (e.1 = k2)) = false by simp [he2]]
        exact ih

theorem bumpInternalIn_inv (m : List (String × (Nat × Nat))) (tr : List Edge)
    (src k : String) (h : IncomingInv m tr) :
    IncomingInv (bumpInternalIn m k) (tr ++ [{ source := src, target := k }]) := by
  intro url
  have hlen : ((tr ++ [Edge.mk src k]).filter
      (fun ed => ed.target = url)).length
      = ((tr.filter (fun ed => ed.target = url)).length
          + (if k = url then 1 else 0)) := by
    rw [List.filter_append]
    simp only [List.length_append]
    by_cases hk : k = url
    · simp [hk]
    · simp [hk]
  by_cases hu : url = k
  · subst hu
    unfold bumpInternalIn
    cases hc : lookupA m url with
    | none =>
      have h0 := h url
      rw [hc] at h0
      simp only [Option.getD_none] at h0
      rw [lookupA_setA_self, hlen]
      have hl : 0 = ((tr.filter (fun ed => ed.target = url)).length) :=
        congrArg Prod.fst h0
      simp [← hl]
    | some c =>
      have h0 := h url
      rw [hc] at h0
      simp only [Option.getD_some] at h0
      rw [lookupA_setA_self, hlen]
      simp only [Option.getD_some, if_pos rfl]
      rw [Prod.ext_iff] at h0 ⊢
      obtain ⟨h1, h2⟩ := h0
      exact ⟨by simp [h1], by simp [h2]⟩
  · have hstep : lookupA (bumpInternalIn m k) url = lookupA m url := by
      unfold bumpInternalIn
      cases hc : lookupA m k with
      | none => exact lookupA_setA_ne m k _ url hu
      | some c => exact lookupA_setA_ne m k _ url hu
    rw [hstep, hlen]
    rw [if_neg (fun hh => hu hh.symm)]
    simpa using h url

theorem classifyStep_inv (pd np fu : String) (acc : LinkAcc) (link : String)
    (h : IncomingInv acc.incomingLinks acc.trace) :
    IncomingInv (classifyStep pd np fu acc link).incomingLinks
      (classifyStep pd np fu acc link).trace := by
  cases hskip : shouldSkipUrl link with
  | true => simp only [classifyStep, hskip, if_true]; exact h
  | false =>
    cases hres : resolveUrl link fu with
    | none =>
      simp only [classifyStep, hskip, Bool.false_eq_true, if_false, hres]
      exact h
    | some resolvedLink =>
      cases hcl : Norm2.normalizeAndClassifyUrl link fu pd with
      | mk fst snd =>
        cases snd with
        | true =>
          cases fst <;>
            · simp only [classifyStep, hskip, Bool.false_eq_true, if_false, hres, hcl]
              exact h
        | false =>
          cases fst with
          | none =>
            simp only [classifyStep, hskip, Bool.false_eq_true, if_false, hres, hcl]
            exact h
          | some nl =>
            by_cases hnp : nl = np
            · simp only [classifyStep, hskip, Bool.false_eq_true, if_false, hres, hcl,
                if_pos hnp]
              exact h
            · simp only [classifyStep, hskip, Bool.false_eq_true, if_false, hres, hcl,
                if_neg hnp]
              exact bumpInternalIn_inv _ _ np nl h

theorem classifyFold_inv (pd np fu : String) :
    ∀ (links : List String) (acc : LinkAcc),
      IncomingInv acc.incomingLinks acc.trace →
      IncomingInv (links.foldl (classifyStep pd np fu) acc).incomingLinks
        (links.foldl (classifyStep pd np fu) acc).trace := by
  intro links
  induction links with
  | nil => intro acc h; exact h
  | cons link rest ih =>
    intro acc h
    simp only [List.foldl_cons]
    exact ih _ (classifyStep_inv pd np fu acc link h)

theorem crawlStep_incoming_inv (env : CrawlEnv) (pd : String) (st : CrawlState)
    (h : IncomingInv st.incomingLinks st.trace) :
    IncomingInv (crawlStep env pd st).incomingLinks (crawlStep env pd st).trace := by
  cases hq : st.queue with
  | nil =>
    simp only [crawlStep, hq]
    exact h
  | cons e rest =>
    by_cases hd : MAX_DEPTH < e.depth
    · simp only [crawlStep, hq]
      rw [if_pos hd]
      exact h
    · by_cases hpd : Norm2.isPrimaryDomain e.normalized_url pd = true
      · cases hdup : (lookupA st.pagesMap e.normalized_url).isSome with
        | true =>
          simp only [crawlStep, hq]
          rw [if_neg hd, if_neg (not_not_intro hpd), if_pos hdup]
          exact h
        | false =>
          cases hskip : shouldSkipUrl e.original_url with
          | true =>
            simp only [crawlStep, hq]
            rw [if_neg hd, if_neg (not_not_intro hpd),
              if_neg (by simp [hdup]), if_pos hskip]
            exact h
          | false =>
            cases hf : env.fetch e.original_url with
            | none =>
              simp only [crawlStep, hq]
              rw [if_neg hd, if_neg (not_not_intro hpd),
                if_neg (by simp [hdup]), if_neg (by simp [hskip])]
              simp only [hf]
              exact h
            | some fr =>
              cases hh : fr.html with
              | none =>
                simp only [crawlStep, hq]
                rw [if_neg hd, if_neg (not_not_intro hpd),
                  if_neg (by simp [hdup]), if_neg (by simp [hskip])]
                simp only [hf, hh]
                exact h
              | some links =>
                simp only [crawlStep, hq]
                rw [if_neg hd, if_neg (not_not_intro hpd),
                  if_neg (by simp [hdup]), if_neg (by simp [hskip])]
                simp only [hf, hh]
                exact classifyFold_inv pd e.normalized_url fr.url links _ h
      · simp only [crawlStep, hq]
        rw [if_neg hd, if_pos hpd]
        exact h

theorem crawlLoop_incoming_inv (env : CrawlEnv) (pd : String) :
    ∀ (fuel : Nat) (st st2 : CrawlState), crawlLoop env pd fuel st = some st2 →
      IncomingInv st.incomingLinks st.trace →
      IncomingInv st2.incomingLinks st2.trace := by
  intro fuel
  induction fuel with
  | zero => intro st st2 hrun; simp [crawlLoop] at hrun
  | succ n ih =>
    intro st st2 hrun hinv
    rw [crawlLoop] at hrun
    by_cases hc : st.queue ≠ [] ∧ st.pagesCrawled < MAX_PAGES
    · rw [if_pos hc] at hrun
      exact ih _ _ hrun (crawlStep_incoming_inv env pd st hinv)
    · rw [if_neg hc] at hrun
      cases hrun
      exact hinv

end Crawl

/-- C2 counterexample: a home page holding two anchors to the same child
produces a persisted internal in-count of 2 on the child, while the set of
distinct (source, target) edges pointing at it has exactly one element. -/
theorem C2_multiplicity_counterexample :
    (Crawl.runCrawl Fixtures.env2 Fixtures.job2 4).map
        (fun r => (Crawl.lookupA r.pages "https://a.com/b").map
          (fun p => (p.internal_links_in, p.external_links_in)))
      = some (some (2, 0))
    ∧ (Crawl.runCrawl Fixtures.env2 Fixtures.job2 4).map
        (fun r => ((r.trace.dedup).filter
          (fun ed => ed.target = "https://a.com/b")).length)
      = some 1 := by
  constructor
  · rfl
  · rfl

/-- C2 (amended): for every page persisted by a completed crawl, the final
internal in-count equals the total number of internal link occurrences
(counted with multiplicity, self-references excluded) whose normalized target
is that page, discovered at any time during the traversal — including from
pages crawled after the target — and the external in-count is always zero,
since no external incoming edge is ever discovered. -/
theorem C2_in_counts_occurrences (env : Crawl.CrawlEnv) (job : Crawl.CrawlJob)
    (fuel : Nat) (res : Crawl.CrawlResult)
    (hrun : Crawl.runCrawl env job fuel = some res)
    (hdone : res.status = "completed") :
    ∀ url page, (url, page) ∈ res.pages →
      page.internal_links_in
          = ((res.trace.filter (fun ed => ed.target = url)).length)
        ∧ page.external_links_in = 0 := by
  unfold Crawl.runCrawl at hrun
  split at hrun
  · cases hrun
    simp [Crawl.invalidSeedResult] at hdone
  · split at hrun
    · cases hrun
      simp [Crawl.invalidSeedResult] at hdone
    · split at hrun
      · cases hrun
        simp [Crawl.invalidSeedResult] at hdone
      · split at hrun
        · cases hrun
        · rename_i st hloop
          cases hrun
          have hinv : Crawl.IncomingInv st.incomingLinks st.trace := by
            refine Crawl.crawlLoop_incoming_inv _ _ fuel _ st hloop ?_
            intro url
            simp [Crawl.initState, Crawl.lookupA, List.find?]
          intro url page hmem
          simp only [Crawl.finalizeCrawl] at hmem ⊢
          obtain ⟨p, hp, hrec⟩ := List.mem_map.mp hmem
          simp only [Crawl.reconcilePage, Prod.mk.injEq] at hrec
          obtain ⟨hu, hpage⟩ := hrec
          subst hu
          have hiv := hinv p.1
          constructor
          · rw [← hpage]
            simp only []
            rw [hiv]
          · rw [← hpage]
            simp only []
            rw [hiv]

/-- C2 witness: the amended equation holds at the concrete two-page run for
the child page. -/
theorem C2_in_counts_occurrences_witness :
    Fixtures.pageB.internal_links_in
        = ((Fixtures.res2.trace.filter
          (fun ed => ed.target = "https://a.com/b")).length)
      ∧ Fixtures.pageB.external_links_in = 0 :=
  C2_in_counts_occurrences Fixtures.env2 Fixtures.job2 4 Fixtures.res2 (by rfl) (by rfl)
    "https://a.com/b" Fixtures.pageB (by decide)

/-- C7 witness: the invariant is preserved at a concrete post-seed state. -/
theorem C7_frontier_never_duplicates_witness :
    Crawl.QueueInv (Crawl.crawlStep Fixtures.env2 "a.com"
      (Crawl.initState Fixtures.env2 "https://a.com/" "https://a.com" "a.com")) :=
  C7_frontier_never_duplicates.2.1 Fixtures.env2 "a.com"
    (Crawl.initState Fixtures.env2 "https://a.com/" "https://a.com" "a.com")
    (by constructor <;> decide)

theorem removeTracking_eq_filter (q : List (String × String)) :
    removeTracking q = q.filter (fun p => ! isTrackingKey p.1) := by
  show q.filter
      (fun p => ! ((q.filter (fun r => isTrackingKey r.1)).map Prod.fst).contains p.1)
    = q.filter (fun p => ! isTrackingKey p.1)
  apply List.filter_congr
  intro p hp
  cases ht : isTrackingKey p.1 with
  | true =>
    have hmem : p.1 ∈ (q.filter (fun r => isTrackingKey r.1)).map Prod.fst :=
      List.mem_map.mpr ⟨p, List.mem_filter.mpr ⟨hp, ht⟩, rfl⟩
    have hc : ((q.filter (fun r => isTrackingKey r.1)).map Prod.fst).contains p.1
        = true := List.elem_iff.mpr hmem
    rw [hc]
  | false =>
    have hnc : ((q.filter (fun r => isTrackingKey r.1)).map Prod.fst).contains p.1
        = false := by
      cases hcc : ((q.filter (fun r => isTrackingKey r.1)).map Prod.fst).contains p.1 with
      | false => rfl
      | true =>
        obtain ⟨r, hr, hre⟩ := List.mem_map.mp (List.elem_iff.mp hcc)
        obtain ⟨_, hrt⟩ := List.mem_filter.mp hr
        rw [hre] at hrt
        rw [hrt] at ht
        exact absurd ht (by simp)
    rw [hnc]

/-- C1 counterexample: a non-tracking, non-pagination query parameter (foo)
survives canonicalization unchanged, contradicting "all other query
parameters are dropped"; the variant bundled in src/extract.js instead drops
the whole query string, contradicting the pagination-preservation half. -/
theorem C1_other_params_kept_counterexample :
    Normalize.normalizeUrl "https://example.com/a?foo=bar"
        = some "https://example.com/a?foo=bar"
    ∧ ¬ Normalize.normalizeUrl "https://example.com/a?foo=bar"
        = some "https://example.com/a"
    ∧ Norm2.normalizeUrl "https://example.com/list?page=2"
        = some "https://example.com/list" :=
  ⟨by decide, by decide, by decide⟩

/-- C1 (amended): canonicalization in src/normalize.js removes exactly the
tracking query parameters (utm_*-prefixed keys outside the pagination
allow-list, fbclid, gclid), preserving the pagination allow-list parameters —
so otherwise-identical URLs differing in a pagination parameter stay
distinct — and preserving, not dropping, every other query parameter; the
normalizeUrl variant bundled in src/extract.js drops the entire query
string instead. -/
theorem C1_query_parameter_handling :
    (∀ u : Url, (Normalize.normCore u).query
        = u.query.filter (fun p => ! isTrackingKey p.1))
    ∧ (∀ u : Url, (Norm2.normCore u).query = [])
    ∧ Normalize.normalizeUrl "https://example.com/list?page=1"
        = some "https://example.com/list?page=1"
    ∧ Normalize.normalizeUrl "https://example.com/list?page=2"
        = some "https://example.com/list?page=2"
    ∧ Normalize.normalizeUrl "https://example.com/list?page=1"
        ≠ Normalize.normalizeUrl "https://example.com/list?page=2"
    ∧ Normalize.normalizeUrl
        "https://example.com/a?utm_source=x&fbclid=f&gclid=g&page=3&foo=bar"
        = some "https://example.com/a?page=3&foo=bar" := by
  refine ⟨?_, fun u => rfl, by decide, by decide, by decide, by decide⟩
  intro u
  exact removeTracking_eq_filter u.query

theorem strData_append (a b : String) : (a ++ b).data = a.data ++ b.data := by
  rcases a with ⟨la⟩
  rcases b with ⟨lb⟩
  rfl

theorem strMk_data (s : String) : String.mk s.data = s := by
  rcases s with ⟨l⟩
  rfl

theorem takeUntil_all_false (p : Char → Bool) :
    ∀ (l : List Char), (∀ c ∈ l, p c = false) → takeUntil p l = (l, []) := by
  intro l
  induction l with
  | nil => intro _; rfl
  | cons c cs ih =>
    intro h
    simp only [takeUntil]
    rw [if_neg (by rw [h c (List.mem_cons_self c cs)]; exact Bool.false_ne_true)]
    rw [ih (fun x hx => h x (List.mem_cons_of_mem c hx))]

theorem takeUntil_append_stop (p : Char → Bool) (c : Char) (hc : p c = true) :
    ∀ (a b : List Char), (∀ x ∈ a, p x = false) →
      takeUntil p (a ++ c :: b) = (a, c :: b) := by
  intro a
  induction a with
  | nil =>
    intro b _
    simp only [List.nil_append, takeUntil]
    rw [if_pos hc]
  | cons x xs ih =>
    intro b h
    simp only [List.cons_append, takeUntil, List.append_eq]
    rw [if_neg (by rw [h x (List.mem_cons_self x xs)]; exact Bool.false_ne_true)]
    rw [ih b (fun y hy => h y (List.mem_cons_of_mem x hy))]

theorem takeUntil_append_eq (p : Char → Bool) :
    ∀ (l : List Char), (takeUntil p l).1 ++ (takeUntil p l).2 = l := by
  intro l
  induction l with
  | nil => rfl
  | cons c cs ih =>
    simp only [takeUntil]
    by_cases h : p c = true
    · rw [if_pos h]
      rfl
    · rw [if_neg h]
      simp only [List.cons_append]
      rw [ih]

theorem takeUntil_fst_false (p : Char → Bool) :
    ∀ (l : List Char), ∀ c ∈ (takeUntil p l).1, p c = false := by
  intro l
  induction l with
  | nil => intro c hc; simp [takeUntil] at hc
  | cons x xs ih =>
    intro c hc
    simp only [takeUntil] at hc
    by_cases h : p x = true
    · rw [if_pos h] at hc
      simp at hc
    · rw [if_neg h] at hc
      simp only [List.mem_cons] at hc
      rcases hc with hc | hc
      · subst hc
        exact Bool.not_eq_true _ |>.mp h
      · exact ih c hc

theorem takeUntil_fst_subset (p : Char → Bool) (l : List Char) :
    ∀ c ∈ (takeUntil p l).1, c ∈ l := by
  intro c hc
  rw [← takeUntil_append_eq p l]
  exact List.mem_append_left _ hc

theorem takeUntil_snd_subset (p : Char → Bool) (l : List Char) :
    ∀ c ∈ (takeUntil p l).2, c ∈ l := by
  intro c hc
  rw [← takeUntil_append_eq p l]
  exact List.mem_append_right _ hc

theorem splitOnChar_ne_nil (ch : Char) : ∀ (l : List Char), splitOnChar ch l ≠ [] := by
  intro l
  induction l with
  | nil => simp [splitOnChar]
  | cons c cs ih =>
    simp only [splitOnChar]
    by_cases h : c = ch
    · rw [if_pos h]
      simp
    · rw [if_neg h]
      cases hr : splitOnChar ch cs with
      | nil => exact absurd hr ih
      | cons a as => simp

theorem splitOnChar_no_sep (ch : Char) :
    ∀ (l : List Char), (∀ c ∈ l, ¬ c = ch) → splitOnChar ch l = [l] := by
  intro l
  induction l with
  | nil => intro _; rfl
  | cons c cs ih =>
    intro h
    simp only [splitOnChar]
    rw [if_neg (h c (List.mem_cons_self c cs))]
    rw [ih (fun x hx => h x (List.mem_cons_of_mem c hx))]

theorem splitOnChar_append (ch : Char) :
    ∀ (a b : List Char), (∀ c ∈ a, ¬ c = ch) →
      splitOnChar ch (a ++ ch :: b) = a :: splitOnChar ch b := by
  intro a
  induction a with
  | nil =>
    intro b _
    simp [splitOnChar]
  | cons x xs ih =>
    intro b h
    simp only [List.cons_append, splitOnChar, List.append_eq]
    rw [if_neg (h x (List.mem_cons_self x xs))]
    rw [ih b (fun y hy => h y (List.mem_cons_of_mem x hy))]

theorem parseQueryItem_roundtrip (k v : String) (hk : ∀ c ∈ k.data, ¬ c = '=') :
    parseQueryItem (k.data ++ '=' :: v.data) = (k, v) := by
  unfold parseQueryItem
  rw [takeUntil_append_stop _ '=' (by simp) k.data v.data
    (fun x hx => by simp [hk x hx])]

theorem serializeQuery_split (q : List (String × String))
    (wf : ∀ p ∈ q, (∀ c ∈ p.1.data, ¬ c = '&' ∧ ¬ c = '=') ∧ (∀ c ∈ p.2.data, ¬ c = '&'))
    (hne : ¬ q = []) :
    splitOnChar '&' (serializeQuery q).data
      = q.map (fun p => p.1.data ++ '=' :: p.2.data) := by
  induction q with
  | nil => exact absurd rfl hne
  | cons p rest ih =>
    have hseg : ∀ c ∈ p.1.data ++ '=' :: p.2.data, ¬ c = '&' := by
      intro c hc
      rcases List.mem_append.mp hc with hc | hc
      · exact ((wf p (List.mem_cons_self p rest)).1 c hc).1
      · rcases List.mem_cons.mp hc with hc | hc
        · subst hc; decide
        · exact (wf p (List.mem_cons_self p rest)).2 c hc
    cases rest with
    | nil =>
      show splitOnChar '&' (p.1 ++ "=" ++ p.2).data = [p.1.data ++ '=' :: p.2.data]
      rw [strData_append, strData_append]
      rw [show ("=" : String).data = ['='] from rfl]
      rw [List.append_assoc]
      exact splitOnChar_no_sep '&' _ (by simpa using hseg)
    | cons p2 rest2 =>
      show splitOnChar '&' (p.1 ++ "=" ++ p.2 ++ "&" ++ serializeQuery (p2 :: rest2)).data
        = (p.1.data ++ '=' :: p.2.data) :: (p2 :: rest2).map (fun r => r.1.data ++ '=' :: r.2.data)
      rw [strData_append, strData_append, strData_append, strData_append]
      rw [show ("=" : String).data = ['='] from rfl, show ("&" : String).data = ['&'] from rfl]
      have := splitOnChar_append '&' (p.1.data ++ '=' :: p.2.data)
        ((serializeQuery (p2 :: rest2)).data) (by simpa using hseg)
      rw [show p.1.data ++ ['='] ++ p.2.data ++ ['&'] ++ (serializeQuery (p2 :: rest2)).data
          = (p.1.data ++ '=' :: p.2.data) ++ '&' :: (serializeQuery (p2 :: rest2)).data by
        simp [List.append_assoc]]
      rw [this]
      rw [ih (fun r hr => wf r (List.mem_cons_of_mem p hr)) (by simp)]

theorem parseQuery_serialize (q : List (String × String))
    (wf : ∀ p ∈ q, (∀ c ∈ p.1.data, ¬ c = '&' ∧ ¬ c = '=') ∧ (∀ c ∈ p.2.data, ¬ c = '&'))
    (hne : ¬ q = []) :
    parseQuery (serializeQuery q).data = q := by
  unfold parseQuery
  rw [serializeQuery_split q wf hne]
  have hfilter : ((q.map (fun p => p.1.data ++ '=' :: p.2.data)).filter
      (fun seg => decide (¬ seg = []))) = q.map (fun p => p.1.data ++ '=' :: p.2.data) := by
    apply List.filter_eq_self.mpr
    intro a ha
    obtain ⟨p, _, hp⟩ := List.mem_map.mp ha
    subst hp
    simp
  rw [hfilter, List.map_map]
  have : ∀ p ∈ q, (parseQueryItem ∘ fun r => r.1.data ++ '=' :: r.2.data) p = p := by
    intro p hp
    exact parseQueryItem_roundtrip p.1 p.2 (fun c hc => ((wf p hp).1 c hc).2)
  rw [List.map_congr_left this, List.map_id']

theorem collapse_sub : ∀ (l : List Char), List.Sublist (collapseSlashes l) l := by
  intro l
  induction l with
  | nil => simp [collapseSlashes]
  | cons c cs ih =>
    cases cs with
    | nil => simp [collapseSlashes]
    | cons c2 cs2 =>
      simp only [collapseSlashes]
      by_cases h : (c = '/' && c2 = '/') = true
      · rw [if_pos h]
        exact ih.cons c
      · rw [if_neg h]
        exact ih.cons₂ c

theorem collapse_cons : ∀ (cs : List Char) (c : Char),
    ∃ t, collapseSlashes (c :: cs) = c :: t := by
  intro cs
  induction cs with
  | nil => intro c; exact ⟨[], rfl⟩
  | cons c2 cs2 ih =>
    intro c
    simp only [collapseSlashes]
    by_cases h : (c = '/' && c2 = '/') = true
    · rw [if_pos h]
      obtain ⟨t, ht⟩ := ih c2
      have hc : c = c2 := by
        have := Bool.and_eq_true_iff.mp h
        have h1 : c = '/' := by simpa using this.1
        have h2 : c2 = '/' := by simpa using this.2
        rw [h1, h2]
      rw [hc]
      exact ⟨t, ht⟩
    · rw [if_neg h]
      exact ⟨collapseSlashes (c2 :: cs2), rfl⟩

theorem collapse_chain : ∀ (l : List Char), NoDoubleSlash (collapseSlashes l) := by
  intro l
  induction l with
  | nil => simp [collapseSlashes, NoDoubleSlash]
  | cons c cs ih =>
    cases cs with
    | nil => simp [collapseSlashes, NoDoubleSlash]
    | cons c2 cs2 =>
      simp only [collapseSlashes]
      by_cases h : (c = '/' && c2 = '/') = true
      · rw [if_pos h]
        exact ih
      · rw [if_neg h]
        obtain ⟨t, ht⟩ := collapse_cons cs2 c2
        unfold NoDoubleSlash at ih ⊢
        rw [List.chain'_cons']
        refine ⟨?_, ih⟩
        intro y hy
        rw [ht] at hy
        simp only [List.head?_cons, Option.mem_def, Option.some.injEq] at hy
        subst hy
        intro hand
        exact h (by simp [hand.1, hand.2])

theorem collapse_of_chain : ∀ (l : List Char), NoDoubleSlash l → collapseSlashes l = l := by
  intro l
  induction l with
  | nil => intro _; rfl
  | cons c cs ih =>
    intro h
    cases cs with
    | nil => rfl
    | cons c2 cs2 =>
      simp only [collapseSlashes]
      unfold NoDoubleSlash at h
      rw [List.chain'_cons] at h
      rw [if_neg (by simp only [Bool.and_eq_true, decide_eq_true_iff]; exact h.1)]
      rw [ih h.2]

theorem chain_dropLast : ∀ (l : List Char), NoDoubleSlash l → NoDoubleSlash l.dropLast := by
  intro l h
  unfold NoDoubleSlash at h ⊢
  exact List.Chain'.prefix h ( List.dropLast_prefix l)

theorem dropLast_getLast_ne : ∀ (l : List Char), NoDoubleSlash l →
    l.getLast? = some '/' →
    l.dropLast.length ≤ 1 ∨ ¬ l.dropLast.getLast? = some '/' := by
  intro l
  induction l with
  | nil => intro _ _; left; simp
  | cons c cs ih =>
    intro h hl
    cases cs with
    | nil => left; simp
    | cons c2 cs2 =>
      have htail : NoDoubleSlash (c2 :: cs2) := (List.chain'_cons.mp h).2
      have hlast : (c2 :: cs2).getLast? = some '/' := by
        rw [List.getLast?_cons_cons] at hl
        exact hl
      cases cs2 with
      | nil =>
        left
        simp
      | cons c3 cs3 =>
        rcases ih htail hlast with h1 | h2
        · -- the tail's dropLast is the singleton [c2]: cs3 must be empty
          have hcs3 : cs3 = [] := by
            simp only [List.dropLast_cons₂, List.length_cons, List.length_dropLast] at h1
            have := List.length_dropLast (c3 :: cs3)
            rcases cs3 with _ | ⟨c4, cs4⟩
            · rfl
            · simp at h1
          subst hcs3
          have hc3 : c3 = '/' := by
            simp only [List.getLast?_cons_cons, List.getLast?_singleton,
              Option.some.injEq] at hlast
            exact hlast
          have hc2 : ¬ c2 = '/' := by
            intro hc2
            exact (List.chain'_cons.mp htail).1 ⟨hc2, hc3⟩
          right
          intro hcontra
          rw [show (c :: c2 :: [c3]).dropLast = [c, c2] from rfl] at hcontra
          rw [List.getLast?_cons_cons, List.getLast?_singleton] at hcontra
          exact hc2 (Option.some.injEq _ _ ▸ hcontra)
        · right
          intro hcontra
          apply h2
          rw [List.dropLast_cons₂] at hcontra
          rw [show (c2 :: c3 :: cs3).dropLast = c2 :: (c3 :: cs3).dropLast from
            List.dropLast_cons₂] at hcontra ⊢
          rwa [List.getLast?_cons_cons] at hcontra

theorem normalizePath_data (p : String) : (normalizePath p).data =
    (fun p2 => if listStarts "/".data p2 then p2 else '/' :: p2)
      ((fun p1 => if 1 < p1.length ∧ p1.getLast? = some '/' then p1.dropLast else p1)
        (collapseSlashes p.data)) := rfl

theorem normalizePath_ok (p : String) : PathOk (normalizePath p).data := by
  rw [normalizePath_data]
  simp only []
  set p1 := collapseSlashes p.data with hp1
  have h1 : NoDoubleSlash p1 := collapse_chain _
  set p2 := if 1 < p1.length ∧ p1.getLast? = some '/' then p1.dropLast else p1 with hp2
  have h2a : NoDoubleSlash p2 := by
    rw [hp2]
    by_cases hcond : 1 < p1.length ∧ p1.getLast? = some '/'
    · rw [if_pos hcond]
      exact chain_dropLast p1 h1
    · rw [if_neg hcond]
      exact h1
  have h2b : p2.length ≤ 1 ∨ ¬ p2.getLast? = some '/' := by
    rw [hp2]
    by_cases hcond : 1 < p1.length ∧ p1.getLast? = some '/'
    · rw [if_pos hcond]
      exact dropLast_getLast_ne p1 h1 hcond.2
    · rw [if_neg hcond]
      push_neg at hcond
      by_cases hlen : 1 < p1.length
      · exact Or.inr (hcond hlen)
      · exact Or.inl (by omega)
  by_cases hstart : listStarts "/".data p2 = true
  · rw [if_pos hstart]
    exact ⟨hstart, h2a, h2b⟩
  · rw [if_neg hstart]
    have hhead : ∀ h t, p2 = h :: t → ¬ h = '/' := by
      intro h t hp
      intro hh
      apply hstart
      rw [hp, hh]
      rfl
    refine ⟨rfl, ?_, ?_⟩
    · unfold NoDoubleSlash
      rw [List.chain'_cons']
      refine ⟨?_, h2a⟩
      intro y hy
      cases hp : p2 with
      | nil => rw [hp] at hy; simp at hy
      | cons h t =>
        rw [hp] at hy
        simp only [List.head?_cons, Option.mem_def, Option.some.injEq] at hy
        subst hy
        intro hand
        exact hhead _ t hp hand.2
    · cases hp : p2 with
      | nil => left; simp
      | cons h t =>
        right
        rw [show ('/' :: h :: t).getLast? = (h :: t).getLast? from
          List.getLast?_cons_cons]
        rcases h2b with hlen | hlast
        · rw [hp] at hlen
          simp only [List.length_cons] at hlen
          have ht : t = [] := by
            cases t with
            | nil => rfl
            | cons a b => simp at hlen
          subst ht
          simp only [List.getLast?_singleton, Option.some.injEq]
          exact hhead h [] hp
        · rw [hp] at hlast
          exact hlast

theorem normalizePath_fix (p : String) (h : PathOk p.data) : normalizePath p = p := by
  obtain ⟨hs, hc, hl⟩ := h
  have e1 : collapseSlashes p.data = p.data := collapse_of_chain _ hc
  have e2 : ¬ (1 < p.data.length ∧ p.data.getLast? = some '/') := by
    rcases hl with hlen | hlast
    · intro hand; omega
    · intro hand; exact hlast hand.2
  have hdata : (normalizePath p).data = p.data := by
    rw [normalizePath_data]
    simp only []
    rw [e1]
    rw [if_neg e2]
    rw [if_pos hs]
  calc normalizePath p = String.mk (normalizePath p).data := (strMk_data _).symm
    _ = String.mk p.data := by rw [hdata]
    _ = p := strMk_data p

theorem normalizePath_idem (p : String) :
    normalizePath (normalizePath p) = normalizePath p :=
  normalizePath_fix _ (normalizePath_ok p)

theorem normalizePath_mem (p : String) :
    ∀ c ∈ (normalizePath p).data, c ∈ p.data ∨ c = '/' := by
  intro c hc
  rw [normalizePath_data] at hc
  simp only [] at hc
  have hsub1 : ∀ x, x ∈ (if 1 < (collapseSlashes p.data).length
        ∧ (collapseSlashes p.data).getLast? = some '/'
      then (collapseSlashes p.data).dropLast else collapseSlashes p.data) →
      x ∈ p.data := by
    intro x hx
    by_cases hcond : 1 < (collapseSlashes p.data).length
        ∧ (collapseSlashes p.data).getLast? = some '/'
    · rw [if_pos hcond] at hx
      exact (collapse_sub p.data).subset (List.dropLast_sublist _ |>.subset hx)
    · rw [if_neg hcond] at hx
      exact (collapse_sub p.data).subset hx
  by_cases hstart : listStarts "/".data (if 1 < (collapseSlashes p.data).length
        ∧ (collapseSlashes p.data).getLast? = some '/'
      then (collapseSlashes p.data).dropLast else collapseSlashes p.data) = true
  · rw [if_pos hstart] at hc
    exact Or.inl (hsub1 c hc)
  · rw [if_neg hstart] at hc
    rcases List.mem_cons.mp hc with hc | hc
    · exact Or.inr hc
    · exact Or.inl (hsub1 c hc)

theorem char_toNat_inj {c d : Char} (h : c.toNat = d.toNat) : c = d := by
  have h2 : c.val = d.val := by
    rcases c with ⟨⟨⟨cv, hc⟩⟩, pc⟩
    rcases d with ⟨⟨⟨dv, hd⟩⟩, pd⟩
    simp only [Char.toNat, UInt32.toNat] at h
    have h4 : cv = dv := h
    subst h4
    rfl
  exact Char.eq_of_val_eq h2

theorem charLower_toNat_of {c : Char} (h : 65 ≤ c.toNat ∧ c.toNat ≤ 90) :
    (charLower c).toNat = c.toNat + 32 := by
  unfold charLower
  rw [if_pos h]
  unfold Char.ofNat
  rw [dif_pos (Or.inl (by omega))]
  rfl

theorem charLower_eq_self {c : Char} (h : ¬(65 ≤ c.toNat ∧ c.toNat ≤ 90)) :
    charLower c = c := by
  unfold charLower
  rw [if_neg h]

theorem charLower_idem (c : Char) : charLower (charLower c) = charLower c := by
  by_cases h : 65 ≤ c.toNat ∧ c.toNat ≤ 90
  · have h2 := charLower_toNat_of h
    exact charLower_eq_self (by omega)
  · rw [charLower_eq_self h]
    exact charLower_eq_self h

theorem charLower_ne_low {c d : Char} (hd : d.toNat < 65) (hne : ¬ c = d) :
    ¬ charLower c = d := by
  by_cases h : 65 ≤ c.toNat ∧ c.toNat ≤ 90
  · intro he
    have h2 := charLower_toNat_of h
    rw [he] at h2
    omega
  · rw [charLower_eq_self h]
    exact hne

theorem charLower_scheme {c : Char} (h : isSchemeChar c = true) :
    isSchemeChar (charLower c) = true := by
  simp only [isSchemeChar, Bool.or_eq_true, Bool.and_eq_true,
    decide_eq_true_iff] at h ⊢
  by_cases hr : 65 ≤ c.toNat ∧ c.toNat ≤ 90
  · have h2 := charLower_toNat_of hr
    right
    omega
  · rw [charLower_eq_self hr]
    exact h

theorem strLower_data (s : String) : (strLower s).data = s.data.map charLower := rfl

theorem strLower_fix_of (s : String) (h : ∀ c ∈ s.data, charLower c = c) :
    strLower s = s := by
  unfold strLower
  rw [List.map_congr_left h, List.map_id']

theorem mem_strLower_fix (s : String) : ∀ c ∈ (strLower s).data, charLower c = c := by
  intro c hc
  rw [strLower_data] at hc
  obtain ⟨x, _, hx⟩ := List.mem_map.mp hc
  rw [← hx]
  exact charLower_idem x

theorem stripWww_of_not (s : String) (h : listStarts "www.".data s.data = false) :
    stripWww s = s := by
  unfold stripWww
  rw [if_neg (by rw [h]; exact Bool.false_ne_true)]

theorem stripWww_data_cases (s : String) :
    (stripWww s).data = s.data ∨ (stripWww s).data = s.data.drop 4 := by
  unfold stripWww
  by_cases h : listStarts "www.".data s.data = true
  · rw [if_pos h]
    right
    rfl
  · rw [if_neg h]
    left
    rfl

theorem mem_stripWww (s : String) : ∀ c ∈ (stripWww s).data, c ∈ s.data := by
  intro c hc
  rcases stripWww_data_cases s with h | h
  · rw [h] at hc
    exact hc
  · rw [h] at hc
    exact List.mem_of_mem_drop hc

theorem splitScheme_round (sc rest : List Char)
    (h1 : ¬ sc = []) (h2 : ∀ c ∈ sc, isSchemeChar c = true) :
    splitScheme (sc ++ ':' :: '/' :: '/' :: rest) = some (sc, rest) := by
  have hne : ∀ x ∈ sc, (fun c => decide (c = ':')) x = false := by
    intro x hx
    simp only [decide_eq_false_iff_not]
    intro he
    have h3 := h2 x hx
    rw [he] at h3
    exact absurd h3 (by decide)
  have htu := takeUntil_append_stop (fun c => decide (c = ':')) ':' (by decide)
    sc ('/' :: '/' :: rest) hne
  unfold splitScheme
  rw [htu]
  show (if sc = [] then none
    else if ¬ sc.all isSchemeChar then none
    else some (sc, rest)) = some (sc, rest)
  rw [if_neg h1, if_neg (not_not_intro (List.all_eq_true.mpr (fun c hc => h2 c hc)))]

theorem splitAuthority_round (host tail : List Char)
    (hne : ¬ host = [])
    (hch : ∀ c ∈ host, ¬ c = '/' ∧ ¬ c = '?' ∧ ¬ c = '#' ∧ ¬ c = ':' ∧ ¬ c = '@') :
    splitAuthority (host ++ '/' :: tail) = some (host, none, '/' :: tail) := by
  have hauth : ∀ x ∈ host, isAuthEnd x = false := by
    intro x hx
    obtain ⟨a1, a2, a3, _, _⟩ := hch x hx
    simp [isAuthEnd, a1, a2, a3]
  have htu := takeUntil_append_stop isAuthEnd '/' (by decide) host tail hauth
  have hcolon : takeUntil (fun c => decide (c = ':')) host = (host, []) :=
    takeUntil_all_false _ host (fun c hc => by simp [(hch c hc).2.2.2.1])
  have hat : host.any (fun c => decide (c = '@')) = false :=
    List.any_eq_false.mpr (fun x hx => by simp [(hch x hx).2.2.2.2])
  unfold splitAuthority
  rw [htu]
  show (if host.any (fun c => decide (c = '@')) = true then none
    else if (takeUntil (fun c => decide (c = ':')) host).1 = [] then none
    else match (takeUntil (fun c => decide (c = ':')) host).2 with
      | [] => some ((takeUntil (fun c => decide (c = ':')) host).1, none, '/' :: tail)
      | _ :: portCs =>
        if portCs = [] then some ((takeUntil (fun c => decide (c = ':')) host).1, none, '/' :: tail)
        else match digitsToNat portCs with
          | none => none
          | some n =>
            if n ≤ 65535
            then some ((takeUntil (fun c => decide (c = ':')) host).1, some n, '/' :: tail)
            else none) = some (host, none, '/' :: tail)
  rw [hat, hcolon]
  show (if (false = true) then none else if host = [] then none
    else some (host, none, '/' :: tail)) = some (host, none, '/' :: tail)
  rw [if_neg (by simp), if_neg hne]

theorem splitPath_whole (pt : List Char) (hch : ∀ c ∈ '/' :: pt, isPathEnd c = false) :
    splitPath ('/' :: pt) = ('/' :: pt, []) := by
  simp only [splitPath]
  exact takeUntil_all_false isPathEnd _ hch

theorem splitPath_query (pt sq : List Char)
    (hch : ∀ c ∈ '/' :: pt, isPathEnd c = false) :
    splitPath (('/' :: pt) ++ '?' :: sq) = ('/' :: pt, '?' :: sq) := by
  rw [List.cons_append]
  simp only [splitPath]
  rw [← List.cons_append]
  exact takeUntil_append_stop isPathEnd '?' (by decide) ('/' :: pt) sq hch

theorem splitQuery_nil : splitQuery [] = ([], []) := rfl

theorem splitQuery_no_hash (sq : List Char) (h : ∀ c ∈ sq, isHash c = false) :
    splitQuery ('?' :: sq) = (sq, []) := by
  simp only [splitQuery]
  exact takeUntil_all_false isHash sq h

theorem serializeQuery_mem (q : List (String × String)) :
    ∀ c ∈ (serializeQuery q).data,
      (∃ p ∈ q, c ∈ p.1.data ∨ c ∈ p.2.data) ∨ c = '=' ∨ c = '&' := by
  induction q with
  | nil => intro c hc; exact absurd hc (by simp [serializeQuery])
  | cons p rest ih =>
    intro c hc
    cases rest with
    | nil =>
      have hc2 : c ∈ (p.1 ++ "=" ++ p.2).data := hc
      rw [strData_append, strData_append] at hc2
      rcases List.mem_append.mp hc2 with h | h
      · rcases List.mem_append.mp h with h | h
        · exact Or.inl ⟨p, List.mem_cons_self p [], Or.inl h⟩
        · exact Or.inr (Or.inl (by simpa using h))
      · exact Or.inl ⟨p, List.mem_cons_self p [], Or.inr h⟩
    | cons p2 r2 =>
      have hc2 : c ∈ (p.1 ++ "=" ++ p.2 ++ "&" ++ serializeQuery (p2 :: r2)).data := hc
      rw [strData_append, strData_append, strData_append, strData_append] at hc2
      rcases List.mem_append.mp hc2 with h | h
      · rcases List.mem_append.mp h with h | h
        · rcases List.mem_append.mp h with h | h
          · rcases List.mem_append.mp h with h | h
            · exact Or.inl ⟨p, List.mem_cons_self p _, Or.inl h⟩
            · exact Or.inr (Or.inl (by simpa using h))
          · exact Or.inl ⟨p, List.mem_cons_self p _, Or.inr h⟩
        · exact Or.inr (Or.inr (by simpa using h))
      · rcases ih c h with ⟨p3, hp3, hm⟩ | h2
        · exact Or.inl ⟨p3, List.mem_cons_of_mem p hp3, hm⟩
        · exact Or.inr h2

theorem splitOnChar_mem (ch : Char) :
    ∀ (l : List Char), ∀ seg ∈ splitOnChar ch l, ∀ c ∈ seg, c ∈ l ∧ ¬ c = ch := by
  intro l
  induction l with
  | nil =>
    intro seg hseg c hcseg
    simp only [splitOnChar, List.mem_singleton] at hseg
    subst hseg
    exact absurd hcseg (by simp)
  | cons x xs ih =>
    intro seg hseg c hcseg
    simp only [splitOnChar] at hseg
    by_cases hx : x = ch
    · rw [if_pos hx] at hseg
      rcases List.mem_cons.mp hseg with h | h
      · subst h; exact absurd hcseg (by simp)
      · obtain ⟨hmem, hne⟩ := ih seg h c hcseg
        exact ⟨List.mem_cons_of_mem x hmem, hne⟩
    · rw [if_neg hx] at hseg
      cases hr : splitOnChar ch xs with
      | nil => exact absurd hr (splitOnChar_ne_nil ch xs)
      | cons hseg0 t =>
        rw [hr] at hseg
        rcases List.mem_cons.mp hseg with h | h
        · subst h
          rcases List.mem_cons.mp hcseg with h2 | h2
          · subst h2
            exact ⟨List.mem_cons_self c xs, hx⟩
          · obtain ⟨hmem, hne⟩ := ih hseg0 (hr ▸ List.mem_cons_self hseg0 t) c h2
            exact ⟨List.mem_cons_of_mem x hmem, hne⟩
        · obtain ⟨hmem, hne⟩ := ih seg (hr ▸ List.mem_cons_of_mem hseg0 h) c hcseg
          exact ⟨List.mem_cons_of_mem x hmem, hne⟩

theorem parseQuery_wf (qcs : List Char) (hno : ∀ c ∈ qcs, ¬ c = '#') :
    QueryOk (parseQuery qcs) := by
  intro p hp
  unfold parseQuery at hp
  obtain ⟨seg, hseg, hpeq⟩ := List.mem_map.mp hp
  have hsegmem : seg ∈ splitOnChar '&' qcs := List.mem_of_mem_filter hseg
  have hsegch : ∀ c ∈ seg, c ∈ qcs ∧ ¬ c = '&' :=
    fun c hc => splitOnChar_mem '&' qcs seg hsegmem c hc
  unfold parseQueryItem at hpeq
  rcases hsnd : (takeUntil (fun c => decide (c = '=')) seg).2 with _ | ⟨x, v⟩
  · simp only [hsnd] at hpeq
    constructor
    · intro c hc
      rw [← hpeq] at hc
      have hc1 : c ∈ (takeUntil (fun c => decide (c = '=')) seg).1 := hc
      have hmemseg : c ∈ seg := takeUntil_fst_subset _ seg c hc1
      have hneq : ¬ c = '=' := by
        have := takeUntil_fst_false (fun c => decide (c = '=')) seg c hc1
        simpa using this
      exact ⟨(hsegch c hmemseg).2, hno c (hsegch c hmemseg).1, hneq⟩
    · intro c hc
      rw [← hpeq] at hc
      exact absurd hc (by simp)
  · simp only [hsnd] at hpeq
    constructor
    · intro c hc
      rw [← hpeq] at hc
      have hc1 : c ∈ (takeUntil (fun c => decide (c = '=')) seg).1 := hc
      have hmemseg : c ∈ seg := takeUntil_fst_subset _ seg c hc1
      have hneq : ¬ c = '=' := by
        have := takeUntil_fst_false (fun c => decide (c = '=')) seg c hc1
        simpa using this
      exact ⟨(hsegch c hmemseg).2, hno c (hsegch c hmemseg).1, hneq⟩
    · intro c hc
      rw [← hpeq] at hc
      have hcv : c ∈ v := hc
      have hmemv : c ∈ (takeUntil (fun c => decide (c = '=')) seg).2 := by
        rw [hsnd]
        exact List.mem_cons_of_mem x hcv
      have hmemseg : c ∈ seg := takeUntil_snd_subset _ seg c hmemv
      exact ⟨(hsegch c hmemseg).2, hno c (hsegch c hmemseg).1⟩

theorem listStarts_slash (l : List Char) (h : listStarts "/".data l = true) :
    ∃ t, l = '/' :: t := by
  cases l with
  | nil => exact absurd h (by decide)
  | cons c cs =>
    have h2 : (decide ('/' = c) && listStarts [] cs) = true := h
    simp only [Bool.and_eq_true, decide_eq_true_iff] at h2
    exact ⟨cs, by rw [← h2.1]⟩

theorem parseQuery_nil : parseQuery [] = [] := rfl

theorem parseFrag_nil : parseFrag [] = "" := rfl

theorem parseUrl_eq (s : String) (scD rest hostCs : List Char)
    (port0 : Option Nat) (rest2 : List Char)
    (h1 : splitScheme s.data = some (scD, rest))
    (h2 : splitAuthority rest = some (hostCs, port0, rest2)) :
    parseUrl s = some (parsedOf scD hostCs port0 rest2) := by
  simp only [parseUrl, parsedOf, h1, h2]

theorem parseUrl_serializeNoPort (v : Url)
    (hsc : SchemeOk v.scheme) (hho : HostOk v.host) (hpa : PathChsOk v.path)
    (hqu : QueryOk v.query) (hport : v.port = none) (hfrag : v.frag = "") :
    parseUrl (Normalize.serializeNoPort v) = some v := by
  obtain ⟨pt, hpt⟩ := listStarts_slash v.path.data hpa.1
  have hpathch : ∀ c ∈ '/' :: pt, isPathEnd c = false := by
    intro c hc
    rw [← hpt] at hc
    obtain ⟨hq1, hq2⟩ := hpa.2 c hc
    simp [isPathEnd, hq1, hq2]
  have hdata : (Normalize.serializeNoPort v).data
      = v.scheme.data ++ ':' :: '/' :: '/'
        :: (v.host.data ++ (v.path.data ++ (searchOf v.query).data)) := by
    show (v.scheme ++ "://" ++ v.host ++ v.path ++ searchOf v.query).data = _
    rw [strData_append, strData_append, strData_append, strData_append]
    rw [show (("://" : String)).data = [':', '/', '/'] from rfl]
    simp [List.append_assoc]
  have hsplit1 : splitScheme (Normalize.serializeNoPort v).data
      = some (v.scheme.data, v.host.data ++ (v.path.data ++ (searchOf v.query).data)) := by
    rw [hdata]
    exact splitScheme_round _ _ hsc.1 hsc.2
  have hsplit2 : splitAuthority (v.host.data ++ (v.path.data ++ (searchOf v.query).data))
      = some (v.host.data, none, '/' :: (pt ++ (searchOf v.query).data)) := by
    rw [hpt, List.cons_append]
    exact splitAuthority_round _ _ hho.1 hho.2
  rw [parseUrl_eq _ _ _ _ _ _ hsplit1 hsplit2]
  by_cases hq0 : v.query = []
  · have hsearch : (searchOf v.query).data = [] := by rw [hq0]; rfl
    have hsp : splitPath ('/' :: (pt ++ (searchOf v.query).data)) = ('/' :: pt, []) := by
      rw [hsearch, List.append_nil]
      exact splitPath_whole pt hpathch
    simp only [parsedOf]
    rw [hsp]
    rcases v with ⟨sc, ho, po, pa, qu, fr⟩
    simp only at hpt hq0 hport hfrag ⊢
    subst hport hfrag hq0
    simp only [splitQuery_nil, parseQuery_nil, parseFrag_nil]
    rw [ite_self]
    rw [if_neg (by simp : ¬ ('/' :: pt = []))]
    rw [← hpt, strMk_data, strMk_data, strMk_data]
  · have hsearch : (searchOf v.query).data = '?' :: (serializeQuery v.query).data := by
      unfold searchOf
      rw [if_neg hq0, strData_append]
      rfl
    have hsqmem : ∀ c ∈ (serializeQuery v.query).data, isHash c = false := by
      intro c hc
      rcases serializeQuery_mem v.query c hc with ⟨p, hp, hm⟩ | h | h
      · rcases hm with hm | hm
        · have := ((hqu p hp).1 c hm).2.1
          simp [isHash, this]
        · have := ((hqu p hp).2 c hm).2
          simp [isHash, this]
      · subst h; decide
      · subst h; decide
    have hsp : splitPath ('/' :: (pt ++ (searchOf v.query).data)) =
        ('/' :: pt, '?' :: (serializeQuery v.query).data) := by
      rw [hsearch]
      rw [← List.cons_append]
      exact splitPath_query pt _ hpathch
    have hwfq : ∀ p ∈ v.query,
        (∀ c ∈ p.1.data, ¬ c = '&' ∧ ¬ c = '=') ∧ (∀ c ∈ p.2.data, ¬ c = '&') := by
      intro p hp
      exact ⟨fun c hc => ⟨((hqu p hp).1 c hc).1, ((hqu p hp).1 c hc).2.2⟩,
        fun c hc => ((hqu p hp).2 c hc).1⟩
    simp only [parsedOf]
    rw [hsp]
    rcases v with ⟨sc, ho, po, pa, qu, fr⟩
    simp only at hpt hq0 hport hfrag hwfq hsqmem ⊢
    subst hport hfrag
    simp only [splitQuery_no_hash _ hsqmem, parseFrag_nil]
    rw [ite_self]
    rw [if_neg (by simp : ¬ ('/' :: pt = []))]
    rw [← hpt, strMk_data, strMk_data, strMk_data]
    rw [parseQuery_serialize qu hwfq hq0]

theorem splitScheme_inv (cs scD rest : List Char)
    (h : splitScheme cs = some (scD, rest)) :
    ¬ scD = [] ∧ ∀ c ∈ scD, isSchemeChar c = true := by
  simp only [splitScheme] at h
  split at h
  · split at h
    · exact absurd h (by simp)
    · split at h
      · exact absurd h (by simp)
      · rename_i hne hall
        rw [Option.some.injEq, Prod.mk.injEq] at h
        rw [← h.1]
        refine ⟨hne, ?_⟩
        rw [not_not] at hall
        exact fun c hc => List.all_eq_true.mp hall c hc
  · exact absurd h (by simp)

theorem splitAuthority_inv (cs hostCs : List Char) (port0 : Option Nat)
    (rest2 : List Char) (h : splitAuthority cs = some (hostCs, port0, rest2)) :
    ¬ hostCs = [] ∧ ∀ c ∈ hostCs,
      ¬ c = '/' ∧ ¬ c = '?' ∧ ¬ c = '#' ∧ ¬ c = ':' ∧ ¬ c = '@' := by
  simp only [splitAuthority] at h
  have hmain : ¬ (takeUntil isAuthEnd cs).1.any (fun c => decide (c = '@')) = true
      ∧ ¬ (takeUntil (fun c => decide (c = ':')) (takeUntil isAuthEnd cs).1).1 = []
      ∧ hostCs = (takeUntil (fun c => decide (c = ':')) (takeUntil isAuthEnd cs).1).1 := by
    split at h
    · exact absurd h (by simp)
    · rename_i hat
      split at h
      · exact absurd h (by simp)
      · rename_i hhe
        split at h
        · rw [Option.some.injEq, Prod.mk.injEq] at h
          exact ⟨hat, hhe, h.1.symm⟩
        · split at h
          · rw [Option.some.injEq, Prod.mk.injEq] at h
            exact ⟨hat, hhe, h.1.symm⟩
          · split at h
            · exact absurd h (by simp)
            · split at h
              · rw [Option.some.injEq, Prod.mk.injEq] at h
                exact ⟨hat, hhe, h.1.symm⟩
              · exact absurd h (by simp)
  obtain ⟨hat, hhe, heq⟩ := hmain
  subst heq
  refine ⟨hhe, ?_⟩
  intro c hc
  have hsub : c ∈ (takeUntil isAuthEnd cs).1 :=
    takeUntil_fst_subset _ _ c hc
  have hauth : isAuthEnd c = false := takeUntil_fst_false _ _ c hsub
  have hcolon : ¬ c = ':' := by
    have := takeUntil_fst_false (fun c => decide (c = ':')) _ c hc
    simpa using this
  have hat2 : ¬ c = '@' := by
    rw [Bool.not_eq_true, List.any_eq_false] at hat
    have := hat c hsub
    simpa using this
  simp only [isAuthEnd, Bool.or_eq_false_iff, decide_eq_false_iff_not] at hauth
  exact ⟨hauth.1.1, hauth.1.2, hauth.2, hcolon, hat2⟩

theorem splitPath_fst_cases (cs : List Char) :
    (splitPath cs).1 = []
    ∨ ((∃ t, (splitPath cs).1 = '/' :: t)
        ∧ ∀ c ∈ (splitPath cs).1, isPathEnd c = false) := by
  unfold splitPath
  split
  · rename_i t
    right
    have h2 : takeUntil isPathEnd ('/' :: t)
        = ('/' :: (takeUntil isPathEnd t).1, (takeUntil isPathEnd t).2) := by
      simp only [takeUntil]
      rw [if_neg (by decide)]
    have hf := takeUntil_fst_false isPathEnd ('/' :: t)
    constructor
    · rw [h2]
      exact ⟨(takeUntil isPathEnd t).1, rfl⟩
    · exact hf
  · left
    rfl

theorem splitQuery_fst_no_hash (cs : List Char) :
    ∀ c ∈ (splitQuery cs).1, ¬ c = '#' := by
  unfold splitQuery
  split
  · intro c hc
    have := takeUntil_fst_false isHash _ c hc
    simpa [isHash] using this
  · intro c hc
    exact absurd hc (by simp)

theorem strMkData (l : List Char) : (String.mk l).data = l := rfl

theorem parseUrl_wf (s : String) (u : Url) (h : parseUrl s = some u) : UrlWf u := by
  simp only [parseUrl] at h
  split at h
  · exact absurd h (by simp)
  · rename_i scD rest hsch
    split at h
    · exact absurd h (by simp)
    · rename_i hostCs port0 rest2 hauth
      rw [Option.some.injEq] at h
      subst h
      obtain ⟨hs1, hs2⟩ := splitScheme_inv s.data scD rest hsch
      obtain ⟨hh1, hh2⟩ := splitAuthority_inv rest hostCs port0 rest2 hauth
      refine ⟨?_, ?_, ?_, ?_⟩
      · show SchemeOk (String.mk scD)
        exact ⟨by simpa [strMkData] using hs1, by simpa [strMkData] using hs2⟩
      · show HostOk (String.mk hostCs)
        exact ⟨by simpa [strMkData] using hh1, by simpa [strMkData] using hh2⟩
      · show PathChsOk (if (splitPath rest2).1 = [] then "/"
          else String.mk (splitPath rest2).1)
        rcases splitPath_fst_cases rest2 with hp | ⟨⟨t, ht⟩, hch⟩
        · rw [hp, if_pos rfl]
          exact ⟨by decide, by decide⟩
        · rw [if_neg (by rw [ht]; simp)]
          constructor
          · rw [strMkData, ht]
            rfl
          · intro c hc
            rw [strMkData] at hc
            have := hch c hc
            simp only [isPathEnd, Bool.or_eq_false_iff, decide_eq_false_iff_not] at this
            exact this
      · show QueryOk (parseQuery (splitQuery (splitPath rest2).2).1)
        exact parseQuery_wf _ (splitQuery_fst_no_hash (splitPath rest2).2)

theorem removeTracking_idem (q : List (String × String)) :
    removeTracking (removeTracking q) = removeTracking q := by
  rw [removeTracking_eq_filter, removeTracking_eq_filter]
  rw [List.filter_filter]
  apply List.filter_congr
  intro p _
  exact Bool.and_self _

theorem normCore_fix (v : Url)
    (h1 : strLower v.scheme = v.scheme)
    (h2 : strLower v.host = v.host)
    (h3 : stripWww v.host = v.host)
    (h4 : normalizePath v.path = v.path)
    (h5 : removeTracking v.query = v.query)
    (h6 : v.port = none) (h7 : v.frag = "") :
    Normalize.normCore v = v := by
  rcases v with ⟨sc, ho, po, pa, qu, fr⟩
  simp only at h1 h2 h3 h4 h5 h6 h7
  subst h6 h7
  unfold Normalize.normCore
  simp only
  rw [h1, h2, h3, h4, h5]

/-- C8 (amended): canonicalize is idempotent on every URL whose canonical
hostname is nonempty and does not itself start with "www.": when normalizeUrl
returns a string and the www-stripped lowercased host of the input is nonempty
and www-free, re-applying normalizeUrl to the result returns it unchanged. -/
theorem C8_idempotence_on_www_free_hosts (s t d : String)
    (h1 : Normalize.normalizeUrl s = some t)
    (h2 : Norm2.extractPrimaryDomain s = some d)
    (h3 : ¬ d = "")
    (h4 : listStarts "www.".data d.data = false) :
    Normalize.normalizeUrl t = some t := by
  cases hp : parseUrl s with
  | none =>
    unfold Normalize.normalizeUrl at h1
    rw [hp] at h1
    exact absurd h1 (by simp)
  | some u =>
    unfold Normalize.normalizeUrl at h1
    rw [hp] at h1
    have ht : Normalize.serializeNoPort (Normalize.normCore u) = t := by
      have h1b : some (Normalize.serializeNoPort (Normalize.normCore u)) = some t := h1
      exact Option.some.inj h1b
    unfold Norm2.extractPrimaryDomain at h2
    rw [hp] at h2
    have hd : stripWww (strLower u.host) = d := by
      have h2b : some (stripWww (strLower u.host)) = some d := h2
      exact Option.some.inj h2b
    obtain ⟨husc, huho, hupa, huqu⟩ := parseUrl_wf s u hp
    have hvsc : SchemeOk (Normalize.normCore u).scheme := by
      show SchemeOk (strLower u.scheme)
      constructor
      · intro hnil
        apply husc.1
        rw [strLower_data] at hnil
        exact List.map_eq_nil_iff.mp hnil
      · intro c hc
        rw [strLower_data] at hc
        obtain ⟨x, hx, hcx⟩ := List.mem_map.mp hc
        rw [← hcx]
        exact charLower_scheme (husc.2 x hx)
    have hvho : HostOk (Normalize.normCore u).host := by
      show HostOk (stripWww (strLower u.host))
      rw [hd]
      constructor
      · intro hnil
        apply h3
        calc d = String.mk d.data := (strMk_data d).symm
          _ = String.mk [] := by rw [hnil]
          _ = "" := rfl
      · intro c hc
        have hc2 : c ∈ (strLower u.host).data := by
          rw [← hd] at hc
          exact mem_stripWww _ c hc
        rw [strLower_data] at hc2
        obtain ⟨x, hx, hcx⟩ := List.mem_map.mp hc2
        obtain ⟨hx1, hx2, hx3, hx4, hx5⟩ := huho.2 x hx
        rw [← hcx]
        exact ⟨charLower_ne_low (by decide) hx1, charLower_ne_low (by decide) hx2,
          charLower_ne_low (by decide) hx3, charLower_ne_low (by decide) hx4,
          charLower_ne_low (by decide) hx5⟩
    have hvpa : PathChsOk (Normalize.normCore u).path := by
      show PathChsOk (normalizePath u.path)
      constructor
      · exact (normalizePath_ok u.path).1
      · intro c hc
        rcases normalizePath_mem u.path c hc with h | h
        · exact hupa.2 c h
        · subst h
          exact ⟨by decide, by decide⟩
    have hvqu : QueryOk (Normalize.normCore u).query := by
      show QueryOk (removeTracking u.query)
      intro p hpmem
      have hpq : p ∈ u.query := by
        rw [removeTracking_eq_filter] at hpmem
        exact List.mem_of_mem_filter hpmem
      exact huqu p hpq
    have hround := parseUrl_serializeNoPort (Normalize.normCore u)
      hvsc hvho hvpa hvqu rfl rfl
    have hfix : Normalize.normCore (Normalize.normCore u) = Normalize.normCore u := by
      apply normCore_fix
      · show strLower (strLower u.scheme) = strLower u.scheme
        exact strLower_fix_of _ (mem_strLower_fix u.scheme)
      · show strLower (stripWww (strLower u.host)) = stripWww (strLower u.host)
        apply strLower_fix_of
        intro c hc
        exact mem_strLower_fix u.host c (mem_stripWww _ c hc)
      · show stripWww (stripWww (strLower u.host)) = stripWww (strLower u.host)
        rw [hd]
        exact stripWww_of_not d h4
      · exact normalizePath_idem u.path
      · exact removeTracking_idem u.query
      · rfl
      · rfl
    rw [← ht]
    unfold Normalize.normalizeUrl
    rw [hround]
    show some (Normalize.serializeNoPort (Normalize.normCore (Normalize.normCore u)))
      = some (Normalize.serializeNoPort (Normalize.normCore u))
    rw [hfix]

/-- C8: counterexample to unconditional idempotence.  The canonicalizer strips
only a single leading "www." from the hostname, so a canonical output whose
host still starts with "www." (from an original "www.www." host) changes again
on re-canonicalization; both normalizeUrl variants behave this way. -/
theorem C8_idempotence_counterexample :
    Normalize.normalizeUrl "https://www.www.example.com/" = some "https://www.example.com/"
    ∧ Normalize.normalizeUrl "https://www.example.com/" = some "https://example.com/"
    ∧ ¬ ((some "https://example.com/" : Option String) = some "https://www.example.com/")
    ∧ Norm2.normalizeUrl "https://www.www.example.com/" = some "https://www.example.com/"
    ∧ Norm2.normalizeUrl "https://www.example.com/" = some "https://example.com/" :=
  ⟨rfl, rfl, by decide, rfl, rfl⟩

theorem C8_idempotence_on_www_free_hosts_witness :
    Normalize.normalizeUrl "https://WWW.Example.com/a//b/?utm_source=x&page=2"
        = some "https://example.com/a/b?page=2"
    ∧ Norm2.extractPrimaryDomain "https://WWW.Example.com/a//b/?utm_source=x&page=2"
        = some "example.com"
    ∧ ¬ ("example.com" : String) = ""
    ∧ listStarts "www.".data ("example.com" : String).data = false
    ∧ Normalize.normalizeUrl "https://example.com/a/b?page=2"
        = some "https://example.com/a/b?page=2" :=
  ⟨rfl, rfl, by decide, rfl,
    C8_idempotence_on_www_free_hosts "https://WWW.Example.com/a//b/?utm_source=x&page=2"
      "https://example.com/a/b?page=2" "example.com" rfl rfl (by decide) rfl⟩
